import Mathlib

/-!
# The `File` resource provider of `main.go`

A shallow embedding of the six lifecycle operations of the `File` resource
(`Create`, `Delete`, `Check`, `Update`, `Diff`, `Read`) together with a model of
the part of Go's `os` package they call, as it behaves on Linux.

The operating system is modelled as a tree of directories, regular files,
symbolic links and special files, with a working directory. A path string
is cut at `/` into names; a path that starts with `/` is walked from the root
and any other path from the working directory; `.` stays, `..` goes to the
parent directory, a symbolic link is followed (at most `maxLinks` of them in
one walk), and a `/` at the end asks for a directory. The process may do
everything: permissions are outside the model, and so are hard links, mount
points, sockets, the limits on the length of names and paths, and a read that
does not return.
A Go pair `(T, error)` is a pair `T × Option Error`, `none` being `nil`.
-/

namespace FileProvider

/-! ## Model of the operating system -/

/-- A Go `string` of file content is a sequence of bytes; `len` is its length. -/
abbrev Bytes := List (Fin 256)

/-- The error numbers of the system calls used by the provider. -/
inductive Errno where
  | ENOENT
  | ENOTDIR
  | EISDIR
  | ENOTEMPTY
  | EBUSY
  | EINVAL
  | ELOOP
  | ENOSPC
  | EIO
  deriving DecidableEq, Repr

/-- A node of the file tree: a regular file with its bytes, a directory with
its named entries, a symbolic link with its target path, or a special file.
A special file is anything that can be opened and written but is no store of
bytes: a character device, a FIFO, a file of a pseudo filesystem. What is
written to it is not kept, and a read of it in full yields `reads`
(`/dev/null` yields nothing). -/
inductive Node where
  | file (data : Bytes)
  | dir (entries : List (String × Node))
  | symlink (target : String)
  | special (reads : Bytes)

/-- The entries of a directory. -/
abbrev Entries := List (String × Node)

/-- What a path walk sees of a node: everything but the entries of a
directory. -/
inductive Kind where
  | file (data : Bytes)
  | dir
  | symlink (target : String)
  | special (reads : Bytes)
  deriving DecidableEq, Repr

/-- The kind of a node. -/
def Node.kind : Node → Kind
  | .file d => .file d
  | .dir _ => .dir
  | .symlink t => .symlink t
  | .special d => .special d

/-- A filesystem: the entries of the root directory, and the working
directory of the process as the names that lead to it from the root. -/
structure FS where
  root : Entries
  cwd : List String

/-- The first entry of a directory with the given name. -/
def lookupEntry (name : String) : Entries → Option Node
  | [] => none
  | (k, v) :: rest => if k = name then some v else lookupEntry name rest

/-- Bind a name in a directory, replacing the entry that has it. -/
def setEntry (name : String) (v : Node) : Entries → Entries
  | [] => [(name, v)]
  | (k, x) :: rest =>
    if k = name then (k, v) :: rest else (k, x) :: setEntry name v rest

/-- Drop every entry of a directory that has the given name. -/
def eraseEntry (name : String) : Entries → Entries
  | [] => []
  | (k, x) :: rest =>
    if k = name then eraseEntry name rest else (k, x) :: eraseEntry name rest

/-- The node at a location: a sequence of entry names from the root, each but
the last naming a directory. No link is followed here. -/
def getNode : Entries → List String → Option Node
  | es, [] => some (.dir es)
  | es, c :: rest =>
    match lookupEntry c es with
    | none => none
    | some (.dir es1) => getNode es1 rest
    | some n => if rest = [] then some n else none

/-- The kind of the node at a location. -/
def kindAt (es : Entries) (loc : List String) : Option Kind :=
  (getNode es loc).map Node.kind

/-- Cut a sequence of characters at every `/`. -/
def splitSlash : List Char → List Char → List (List Char)
  | [], cur => [cur.reverse]
  | c :: cs, cur =>
    if c = '/' then cur.reverse :: splitSlash cs [] else splitSlash cs (c :: cur)

/-- The names of a path string, in order; `.` and `..` are among them. -/
def pathNames (p : String) : List String :=
  ((splitSlash p.toList []).map String.mk).filter (fun s => s ≠ "")

/-- The path starts at the root. -/
def isAbsolute (p : String) : Bool :=
  p.toList.head? = some '/'

/-- The path ends in `/`. -/
def hasTrailingSlash (p : String) : Bool :=
  p.toList.getLast? = some '/'

/-- Where a walk ended: at a node of some kind, or at a name that its
directory does not bind. -/
inductive Found where
  | node (loc : List String) (k : Kind)
  | missing (loc : List String)
  deriving DecidableEq, Repr

/-- The state of a walk after the names at hand: a result, or a symbolic link
to follow with the directory to go on from, the names still to walk and
whether they end in `/`. -/
inductive Step where
  | done (r : Except Errno Found)
  | jump (cur : List String) (names : List String) (trailing : Bool)

/-- Walk names from the directory at `cur`, up to the first symbolic link that
has to be followed. `look` gives the kind of the node at a location.
`followLast` is off for `os.Remove`, which does not follow a link at the last
name; `creating` is on for `os.Create`, which refuses a last name that ends in
`/` before it looks it up; `trailing` says that the names end in `/`. -/
def walkNames (look : List String → Option Kind) (followLast creating trailing : Bool) :
    List String → List String → Step
  | cur, [] => .done (.ok (.node cur .dir))
  | cur, c :: rest =>
    if c = "." then walkNames look followLast creating trailing cur rest
    else if c = ".." then walkNames look followLast creating trailing cur.dropLast rest
    else if rest = [] ∧ trailing = true ∧ creating = true then .done (.error .EISDIR)
    else
      match look (cur ++ [c]) with
      | none =>
        if rest = [] ∧ trailing = false then .done (.ok (.missing (cur ++ [c])))
        else .done (.error .ENOENT)
      | some .dir => walkNames look followLast creating trailing (cur ++ [c]) rest
      | some (.file d) =>
        if rest = [] ∧ trailing = false then .done (.ok (.node (cur ++ [c]) (.file d)))
        else .done (.error .ENOTDIR)
      | some (.special d) =>
        if rest = [] ∧ trailing = false then .done (.ok (.node (cur ++ [c]) (.special d)))
        else .done (.error .ENOTDIR)
      | some (.symlink target) =>
        if rest = [] ∧ followLast = false then
          if trailing = true then .done (.error .ENOTDIR)
          else .done (.ok (.node (cur ++ [c]) (.symlink target)))
        else if target = "" then .done (.error .ENOENT)
        else
          .jump (if isAbsolute target then [] else cur) (pathNames target ++ rest)
            (if rest = [] then trailing || hasTrailingSlash target else trailing)

/-- Walk names and follow up to `links` symbolic links; one more is `ELOOP`. -/
def walkFrom (look : List String → Option Kind) (followLast creating : Bool) :
    Nat → Bool → List String → List String → Except Errno Found
  | 0, trailing, cur, names =>
    match walkNames look followLast creating trailing cur names with
    | .done r => r
    | .jump _ _ _ => .error .ELOOP
  | links + 1, trailing, cur, names =>
    match walkNames look followLast creating trailing cur names with
    | .done r => r
    | .jump cur1 names1 trailing1 =>
      walkFrom look followLast creating links trailing1 cur1 names1

/-- The number of symbolic links one walk follows (`MAXSYMLINKS`). -/
def maxLinks : Nat := 40

/-- Path lookup of the system calls: the empty path is `ENOENT`, and a path
with a NUL character is `EINVAL`, which Go reports before any system call. -/
def walkPath (fs : FS) (followLast creating : Bool) (p : String) : Except Errno Found :=
  if p = "" then .error .ENOENT
  else if Char.ofNat 0 ∈ p.toList then .error .EINVAL
  else
    walkFrom (kindAt fs.root) followLast creating maxLinks (hasTrailingSlash p)
      (if isAbsolute p then [] else fs.cwd) (pathNames p)

/-- Put a regular file with the given bytes at a location: the names before
the last must be directories, and the last name must be free or a regular
file. -/
def putFile (d : Bytes) : Entries → List String → Except Errno Entries
  | _, [] => .error .EISDIR
  | es, [c] =>
    match lookupEntry c es with
    | none => .ok (setEntry c (.file d) es)
    | some (.file _) => .ok (setEntry c (.file d) es)
    | some (.dir _) => .error .EISDIR
    | some _ => .error .EINVAL
  | es, c :: c1 :: rest =>
    match lookupEntry c es with
    | none => .error .ENOENT
    | some (.dir es1) =>
      match putFile d es1 (c1 :: rest) with
      | .error e => .error e
      | .ok es2 => .ok (setEntry c (.dir es2) es)
    | some _ => .error .ENOTDIR

/-- Unlink the entry at a location: a regular file, a symbolic link, a special
file or an empty directory is removed, a directory with entries is `ENOTEMPTY`. -/
def removeEntry : Entries → List String → Except Errno Entries
  | _, [] => .error .EBUSY
  | es, [c] =>
    match lookupEntry c es with
    | none => .error .ENOENT
    | some (.dir (_ :: _)) => .error .ENOTEMPTY
    | some _ => .ok (eraseEntry c es)
  | es, c :: c1 :: rest =>
    match lookupEntry c es with
    | none => .error .ENOENT
    | some (.dir es1) =>
      match removeEntry es1 (c1 :: rest) with
      | .error e => .error e
      | .ok es2 => .ok (setEntry c (.dir es2) es)
    | some _ => .error .ENOTDIR

/-- Model of `os.Stat(name)`: only the error is observed by the provider.
Symbolic links are followed, also at the last name. -/
def osStat (fs : FS) (name : String) : Option Errno :=
  match walkPath fs true false name with
  | .ok (.node _ _) => none
  | .ok (.missing _) => some .ENOENT
  | .error e => some e

/-- Model of `os.IsNotExist(err)`: true for `ENOENT` only, false for `nil`. -/
def osIsNotExist (err : Option Errno) : Bool :=
  match err with
  | some .ENOENT => true
  | _ => false

/-- The open file `os.Create` returns: a regular file or a special file, with its
location. -/
inductive Handle where
  | file (loc : List String)
  | special (loc : List String)
  deriving DecidableEq, Repr

/-- Model of `os.Create(name)`, that is `open` with `O_RDWR|O_CREATE|O_TRUNC`:
symbolic links are followed; a free name is bound to a new empty regular file,
a regular file is cut to length zero, a special file is opened as it is, a
directory is `EISDIR`. The result is the new filesystem and the handle, or the error
with the filesystem as it was. -/
def osCreate (fs : FS) (name : String) : FS × Except Errno Handle :=
  match walkPath fs true true name with
  | .error e => (fs, .error e)
  | .ok (.node _ .dir) => (fs, .error .EISDIR)
  | .ok (.node _ (.symlink _)) => (fs, .error .ELOOP)
  | .ok (.node loc (.special _)) => (fs, .ok (.special loc))
  | .ok (.node loc (.file _)) =>
    match putFile [] fs.root loc with
    | .ok es => (⟨es, fs.cwd⟩, .ok (.file loc))
    | .error e => (fs, .error e)
  | .ok (.missing loc) =>
    match putFile [] fs.root loc with
    | .ok es => (⟨es, fs.cwd⟩, .ok (.file loc))
    | .error e => (fs, .error e)

/-- What the operating system reports for one `f.WriteString(s)`: the number
of bytes written and the error. -/
structure WriteResult where
  n : Nat
  err : Option Errno
  deriving DecidableEq, Repr

/-- Model of `f.WriteString(s)` on a handle just opened by `os.Create`, with
the outcome `w` the operating system reports: the first `w.n` bytes of `s`
are in a regular file afterwards; a special file keeps nothing. -/
def writeString (fs : FS) (f : Handle) (s : Bytes) (w : WriteResult) : FS :=
  match f with
  | .special _ => fs
  | .file loc =>
    match putFile (s.take w.n) fs.root loc with
    | .ok es => ⟨es, fs.cwd⟩
    | .error _ => fs

/-- Model of `os.Remove(name)`, that is `unlink` and then `rmdir`: a symbolic
link at the last name is removed, not followed; a last name `.` is `EINVAL`,
`..` is `ENOTEMPTY`, and the root is `EBUSY`. -/
def osRemove (fs : FS) (name : String) : FS × Option Errno :=
  match walkPath fs false false name with
  | .error e => (fs, some e)
  | .ok found =>
    match (pathNames name).getLast? with
    | none => (fs, some .EBUSY)
    | some last =>
      if last = "." then (fs, some .EINVAL)
      else if last = ".." then (fs, some .ENOTEMPTY)
      else
        match found with
        | .missing _ => (fs, some .ENOENT)
        | .node loc _ =>
          match removeEntry fs.root loc with
          | .ok es => (⟨es, fs.cwd⟩, none)
          | .error e => (fs, some e)

/-- Model of `os.ReadFile(name)`: symbolic links are followed; a regular file
yields its bytes, a special file what it reads as, a directory `EISDIR`. -/
def osReadFile (fs : FS) (name : String) : Except Errno Bytes :=
  match walkPath fs true false name with
  | .ok (.node _ (.file d)) => .ok d
  | .ok (.node _ (.special d)) => .ok d
  | .ok (.node _ .dir) => .error .EISDIR
  | .ok (.node _ (.symlink _)) => .error .ELOOP
  | .ok (.missing _) => .error .ENOENT
  | .error e => .error e

/-- The bytes a full read of the file at this path yields, symbolic links
followed: the bytes of a regular file, or what a special file reads as. -/
def fileAt (fs : FS) (path : String) : Option Bytes :=
  match walkPath fs true false path with
  | .ok (.node _ (.file d)) => some d
  | .ok (.node _ (.special d)) => some d
  | _ => none

/-- The filesystem holds a file with this content at this path. -/
def holdsFile (fs : FS) (path : String) (content : Bytes) : Prop :=
  fileAt fs path = some content

/-- The path, symbolic links followed, leads to a node: a regular file, a
directory or a special file exists there. -/
def entryExists (fs : FS) (path : String) : Prop :=
  (match walkPath fs true false path with
    | .ok (.node _ _) => true
    | _ => false) = true

/-- The directory the path ends in has an entry for the last name, whatever
it is (a symbolic link counts, followed or dangling). -/
def hasEntry (fs : FS) (path : String) : Prop :=
  (match walkPath fs false false path with
    | .ok (.node _ _) => true
    | _ => false) = true

/-- The path, symbolic links followed, leads to a special file. -/
def specialAt (fs : FS) (path : String) : Prop :=
  (match walkPath fs true false path with
    | .ok (.node _ (.special _)) => true
    | _ => false) = true

instance (fs : FS) (path : String) (content : Bytes) :
    Decidable (holdsFile fs path content) := by
  unfold holdsFile; exact inferInstance

instance (fs : FS) (path : String) : Decidable (entryExists fs path) := by
  unfold entryExists; exact inferInstance

instance (fs : FS) (path : String) : Decidable (hasEntry fs path) := by
  unfold hasEntry; exact inferInstance

instance (fs : FS) (path : String) : Decidable (specialAt fs path) := by
  unfold specialAt; exact inferInstance

/-! ## The provider: data model -/

/-- Go `error` values the provider returns: an error of the `os` package with
its error number, or one made by `fmt.Errorf` with its message. -/
inductive Error where
  | pathError (e : Errno)
  | errorf (msg : String)
  deriving DecidableEq, Repr

/-- Input arguments (`FileArgs`). -/
structure FileArgs where
  Path : String
  Force : Bool
  Content : Bytes
  deriving DecidableEq, Repr

/-- Stored state (`FileState`). -/
structure FileState where
  Path : String
  Force : Bool
  Content : Bytes
  deriving DecidableEq, Repr

/-- The zero value `FileArgs{}`. -/
def FileArgs.zero : FileArgs := ⟨"", false, []⟩

/-- The zero value `FileState{}`. -/
def FileState.zero : FileState := ⟨"", false, []⟩

/-- The fields of `infer.CreateRequest[FileArgs]` that `Create` reads. -/
structure CreateRequest where
  Inputs : FileArgs
  DryRun : Bool
  deriving DecidableEq, Repr

/-- Go type `infer.CreateResponse[FileState]`. -/
structure CreateResponse where
  ID : String
  Output : FileState
  deriving DecidableEq, Repr

/-- The zero value `infer.CreateResponse[FileState]{}`. -/
def CreateResponse.zero : CreateResponse := ⟨"", FileState.zero⟩

/-- The field of `infer.DeleteRequest[FileState]` that `Delete` reads. -/
structure DeleteRequest where
  State : FileState
  deriving DecidableEq, Repr

/-- The fields of `infer.UpdateRequest[FileArgs, FileState]` that `Update` reads. -/
structure UpdateRequest where
  Inputs : FileArgs
  State : FileState
  DryRun : Bool
  deriving DecidableEq, Repr

/-- Go type `infer.UpdateResponse[FileState]`. -/
structure UpdateResponse where
  Output : FileState
  deriving DecidableEq, Repr

/-- The zero value `infer.UpdateResponse[FileState]{}`. -/
def UpdateResponse.zero : UpdateResponse := ⟨FileState.zero⟩

/-- The constants of `p.DiffKind`. -/
inductive DiffKind where
  | Add
  | AddReplace
  | Delete
  | DeleteReplace
  | Update
  | UpdateReplace
  deriving DecidableEq, Repr

/-- Go type `p.PropertyDiff`. -/
structure PropertyDiff where
  Kind : DiffKind
  InputDiff : Bool
  deriving DecidableEq, Repr

/-- A Go `map[string]p.PropertyDiff`, as the list of its bindings with one
binding for each key. -/
abbrev DiffMap := List (String × PropertyDiff)

/-- The assignment `m[k] = v`. -/
def DiffMap.set (k : String) (v : PropertyDiff) : DiffMap → DiffMap
  | [] => [(k, v)]
  | (k1, v1) :: rest =>
    if k1 = k then (k1, v) :: rest else (k1, v1) :: DiffMap.set k v rest

/-- The lookup `m[k]` with its presence flag. -/
def DiffMap.get (k : String) : DiffMap → Option PropertyDiff
  | [] => none
  | (k1, v1) :: rest => if k1 = k then some v1 else DiffMap.get k rest

/-- The fields of `infer.DiffRequest[FileArgs, FileState]` that `Diff` reads. -/
structure DiffRequest where
  Inputs : FileArgs
  State : FileState
  deriving DecidableEq, Repr

/-- Go type `infer.DiffResponse` (`p.DiffResponse`). -/
structure DiffResponse where
  DeleteBeforeReplace : Bool
  HasChanges : Bool
  DetailedDiff : DiffMap
  deriving DecidableEq, Repr

/-- The fields of `infer.ReadRequest[FileArgs, FileState]` that `Read` reads. -/
structure ReadRequest where
  ID : String
  State : FileState
  deriving DecidableEq, Repr

/-- Go type `infer.ReadResponse[FileArgs, FileState]`. -/
structure ReadResponse where
  ID : String
  Inputs : FileArgs
  State : FileState
  deriving DecidableEq, Repr

/-- The zero value `infer.ReadResponse[FileArgs, FileState]{}`. -/
def ReadResponse.zero : ReadResponse := ⟨"", FileArgs.zero, FileState.zero⟩

/-- A `property.Value`, cut down to null, booleans, whole numbers and strings;
`Check` makes a string value and looks into no value. -/
inductive Value where
  | null
  | bool (b : Bool)
  | number (n : Int)
  | string (s : String)
  deriving DecidableEq, Repr

/-- An immutable `property.Map`: what each key is bound to. -/
abbrev PropertyMap := String → Option Value

/-- The lookup `m.GetOk(k)`: the presence flag is `isSome`. -/
def PropertyMap.GetOk (m : PropertyMap) (k : String) : Option Value := m k

/-- The copy `m.Set(k, v)` of a map with one key bound anew. -/
def PropertyMap.Set (m : PropertyMap) (k : String) (v : Value) : PropertyMap :=
  fun k1 => if k1 = k then some v else m k1

/-- The fields of `infer.CheckRequest` that `Check` reads. -/
structure CheckRequest where
  Name : String
  NewInputs : PropertyMap

/-- Go type `p.CheckFailure`. -/
structure CheckFailure where
  Property : String
  Reason : String
  deriving DecidableEq, Repr

/-- Go type `infer.CheckResponse[FileArgs]`. -/
structure CheckResponse where
  Inputs : FileArgs
  Failures : List CheckFailure
  deriving DecidableEq, Repr

/-! ## The provider: operations -/

/-- The message of `fmt.Errorf("wrote %d/%d bytes", n, m)`. -/
def wroteMsg (n m : Nat) : String :=
  "wrote " ++ toString n ++ "/" ++ toString m ++ " bytes"

/-- Source function `File.Create`, with the filesystem threaded through and `w` the outcome
of the one `WriteString` call. The deferred `f.Close()` changes nothing here. -/
def Create (fs : FS) (w : WriteResult) (req : CreateRequest) :
    FS × CreateResponse × Option Error :=
  if !req.Inputs.Force && !osIsNotExist (osStat fs req.Inputs.Path) then
    (fs, CreateResponse.zero, some (.errorf "file exists; pass force=true to override"))
  else if req.DryRun then
    (fs, ⟨req.Inputs.Path, FileState.zero⟩, none)
  else
    match osCreate fs req.Inputs.Path with
    | (fs1, .error e) => (fs1, CreateResponse.zero, some (.pathError e))
    | (fs1, .ok f) =>
      let fs2 := writeString fs1 f req.Inputs.Content w
      match w.err with
      | some e => (fs2, CreateResponse.zero, some (.pathError e))
      | none =>
        if w.n ≠ req.Inputs.Content.length then
          (fs2, CreateResponse.zero,
            some (.errorf (wroteMsg w.n req.Inputs.Content.length)))
        else
          (fs2, ⟨req.Inputs.Path,
            ⟨req.Inputs.Path, req.Inputs.Force, req.Inputs.Content⟩⟩, none)

/-- Source function `File.Delete`; the logged warning is not part of the result. -/
def Delete (fs : FS) (req : DeleteRequest) : FS × Option Error :=
  match osRemove fs req.State.Path with
  | (fs1, err) =>
    if osIsNotExist err then (fs1, none)
    else (fs1, err.map Error.pathError)

/-- The map `Check` hands to `infer.DefaultCheck`. -/
def checkInputs (req : CheckRequest) : PropertyMap :=
  if (req.NewInputs.GetOk "path").isSome then req.NewInputs
  else req.NewInputs.Set "path" (.string req.Name)

/-- Source function `File.Check`; `defaultCheck` is the framework function
`infer.DefaultCheck[FileArgs]`. -/
def Check (defaultCheck : PropertyMap → FileArgs × List CheckFailure × Option Error)
    (req : CheckRequest) : CheckResponse × Option Error :=
  match defaultCheck (checkInputs req) with
  | (args, f, err) => (⟨args, f⟩, err)

/-- Source function `File.Update`, with the filesystem threaded through and `w` the outcome
of the one `WriteString` call. The deferred `f.Close()` changes nothing here. -/
def Update (fs : FS) (w : WriteResult) (req : UpdateRequest) :
    FS × UpdateResponse × Option Error :=
  if req.DryRun then
    (fs, UpdateResponse.zero, none)
  else
    match osCreate fs req.State.Path with
    | (fs1, .error e) => (fs1, UpdateResponse.zero, some (.pathError e))
    | (fs1, .ok f) =>
      let fs2 := writeString fs1 f req.Inputs.Content w
      match w.err with
      | some e => (fs2, UpdateResponse.zero, some (.pathError e))
      | none =>
        if w.n ≠ req.Inputs.Content.length then
          (fs2, UpdateResponse.zero,
            some (.errorf (wroteMsg w.n req.Inputs.Content.length)))
        else
          (fs2, ⟨⟨req.Inputs.Path, req.Inputs.Force, req.Inputs.Content⟩⟩, none)

/-- The map `diff` that `Diff` builds before it returns. -/
def diffMap (fs : FS) (req : DiffRequest) : DiffMap :=
  let d0 : DiffMap := []
  let d1 := if req.Inputs.Content ≠ req.State.Content then
    d0.set "content" ⟨.Update, false⟩ else d0
  let d2 := if req.Inputs.Force ≠ req.State.Force then
    d1.set "force" ⟨.Update, false⟩ else d1
  if req.Inputs.Path ≠ req.State.Path then
    d2.set "path" ⟨.UpdateReplace, false⟩
  else if osIsNotExist (osStat fs req.Inputs.Path) then
    d2.set "path" ⟨.Add, false⟩
  else d2

/-- Source function `File.Diff`; it leaves the filesystem as it is. -/
def Diff (fs : FS) (req : DiffRequest) : DiffResponse × Option Error :=
  let diff := diffMap fs req
  (⟨true, decide (diff.length > 0), diff⟩, none)

/-- Source function `File.Read`; it leaves the filesystem as it is. -/
def Read (fs : FS) (req : ReadRequest) : ReadResponse × Option Error :=
  match osReadFile fs req.ID with
  | .error e => (ReadResponse.zero, some (.pathError e))
  | .ok content =>
    (⟨req.ID, ⟨req.ID, req.State.Force, content⟩,
      ⟨req.ID, req.State.Force, content⟩⟩, none)

/-- A validation function for the examples: it reads `path` and `force` off
the map and reports nothing. -/
def plainCheck (m : PropertyMap) : FileArgs × List CheckFailure × Option Error :=
  (⟨match m "path" with
      | some (.string s) => s
      | _ => "",
    match m "force" with
      | some (.bool b) => b
      | _ => false,
    []⟩, [], none)

/-! ## Lemmas on the file tree -/

theorem lookupEntry_setEntry_self (c : String) (v : Node) (es : Entries) :
    lookupEntry c (setEntry c v es) = some v := by
  induction es with
  | nil => simp [setEntry, lookupEntry]
  | cons hd tl ih =>
    obtain ⟨k, x⟩ := hd
    by_cases hk : k = c
    · simp [setEntry, lookupEntry, hk]
    · simp [setEntry, lookupEntry, hk, ih]

theorem lookupEntry_setEntry_ne (c c1 : String) (v : Node) (es : Entries) (h : c1 ≠ c) :
    lookupEntry c1 (setEntry c v es) = lookupEntry c1 es := by
  induction es with
  | nil => simp [setEntry, lookupEntry, Ne.symm h]
  | cons hd tl ih =>
    obtain ⟨k, x⟩ := hd
    by_cases hk : k = c
    · have hk1 : ¬ k = c1 := by rw [hk]; exact Ne.symm h
      simp [setEntry, lookupEntry, hk, hk1, Ne.symm h]
    · by_cases hk1 : k = c1
      · subst hk1
        simp [setEntry, lookupEntry, h]
      · simp [setEntry, lookupEntry, hk, hk1, ih]

theorem lookupEntry_eraseEntry_self (c : String) (es : Entries) :
    lookupEntry c (eraseEntry c es) = none := by
  induction es with
  | nil => simp [eraseEntry, lookupEntry]
  | cons hd tl ih =>
    obtain ⟨k, x⟩ := hd
    by_cases hk : k = c
    · simp [eraseEntry, hk, ih]
    · simp [eraseEntry, lookupEntry, hk, ih]

theorem lookupEntry_eraseEntry_ne (c c1 : String) (es : Entries) (h : c1 ≠ c) :
    lookupEntry c1 (eraseEntry c es) = lookupEntry c1 es := by
  induction es with
  | nil => simp [eraseEntry, lookupEntry]
  | cons hd tl ih =>
    obtain ⟨k, x⟩ := hd
    by_cases hk : k = c
    · subst hk
      simp [eraseEntry, lookupEntry, Ne.symm h, ih]
    · by_cases hk1 : k = c1
      · subst hk1
        simp [eraseEntry, lookupEntry, h]
      · simp [eraseEntry, lookupEntry, hk, hk1, ih]

/-- The kind at a location that starts with the name `c`, by what `c` is
bound to. -/
theorem kindAt_cons (es : Entries) (c : String) (rest : List String) :
    kindAt es (c :: rest) =
      match lookupEntry c es with
      | none => none
      | some (.dir es1) => kindAt es1 rest
      | some n => if rest = [] then some n.kind else none := by
  unfold kindAt
  simp only [getNode]
  cases lookupEntry c es with
  | none => rfl
  | some n =>
    cases n <;> simp

/-- After a file was put at a location, that location is the file and every
other location is as it was. -/
theorem kindAt_putFile (d : Bytes) (t : List String) :
    ∀ (es es1 : Entries), putFile d es t = .ok es1 →
      ∀ w, kindAt es1 w = if w = t then some (.file d) else kindAt es w := by
  induction t with
  | nil => intro es es1 h; simp [putFile] at h
  | cons c rest ih =>
    intro es es1 h w
    cases rest with
    | nil =>
      have hes1 : es1 = setEntry c (.file d) es ∧
          (lookupEntry c es = none ∨ ∃ d0, lookupEntry c es = some (.file d0)) := by
        simp only [putFile] at h
        cases hl : lookupEntry c es with
        | none => simp [hl] at h; exact ⟨h.symm, Or.inl rfl⟩
        | some n =>
          cases n with
          | file d0 => simp [hl] at h; exact ⟨h.symm, Or.inr ⟨d0, rfl⟩⟩
          | dir e => simp [hl] at h
          | symlink s => simp [hl] at h
          | special r => simp [hl] at h
      obtain ⟨he, hold⟩ := hes1
      subst he
      cases w with
      | nil => simp [kindAt, getNode, Node.kind]
      | cons c1 r1 =>
        rw [kindAt_cons, kindAt_cons]
        by_cases hc : c1 = c
        · subst hc
          rw [lookupEntry_setEntry_self]
          rcases hold with hn | ⟨d0, hf⟩
          · by_cases hr : r1 = [] <;> simp [hn, Node.kind, hr]
          · by_cases hr : r1 = [] <;> simp [hf, Node.kind, hr]
        · rw [lookupEntry_setEntry_ne c c1 _ es hc]
          simp [hc]
    | cons c2 rest2 =>
      simp only [putFile] at h
      cases hl : lookupEntry c es with
      | none => simp [hl] at h
      | some n =>
        cases n with
        | file d0 => simp [hl] at h
        | symlink s => simp [hl] at h
        | special r => simp [hl] at h
        | dir e =>
          simp only [hl] at h
          cases hp : putFile d e (c2 :: rest2) with
          | error x => simp [hp] at h
          | ok e2 =>
            simp only [hp, Except.ok.injEq] at h
            subst h
            cases w with
            | nil => simp [kindAt, getNode, Node.kind]
            | cons c1 r1 =>
              rw [kindAt_cons, kindAt_cons]
              by_cases hc : c1 = c
              · subst hc
                rw [lookupEntry_setEntry_self, hl]
                simp only
                rw [ih e e2 hp r1]
                simp
              · rw [lookupEntry_setEntry_ne c c1 _ es hc]
                simp [hc]

/-- What `putFile` overwrites is a free name or a regular file. -/
theorem kindAt_of_putFile (d : Bytes) (t : List String) :
    ∀ (es es1 : Entries), putFile d es t = .ok es1 →
      kindAt es t = none ∨ ∃ d0, kindAt es t = some (.file d0) := by
  induction t with
  | nil => intro es es1 h; simp [putFile] at h
  | cons c rest ih =>
    intro es es1 h
    rw [kindAt_cons]
    cases rest with
    | nil =>
      simp only [putFile] at h
      cases hl : lookupEntry c es with
      | none => simp
      | some n =>
        cases n with
        | file d0 => simp [Node.kind]
        | dir e => simp [hl] at h
        | symlink s => simp [hl] at h
        | special r => simp [hl] at h
    | cons c2 rest2 =>
      simp only [putFile] at h
      cases hl : lookupEntry c es with
      | none => simp [hl] at h
      | some n =>
        cases n with
        | file d0 => simp [hl] at h
        | symlink s => simp [hl] at h
        | special r => simp [hl] at h
        | dir e =>
          simp only [hl] at h
          cases hp : putFile d e (c2 :: rest2) with
          | error x => simp [hp] at h
          | ok e2 => exact ih e e2 hp

/-- A regular file can be overwritten. -/
theorem putFile_of_kindAt (d d0 : Bytes) (t : List String) :
    ∀ es : Entries, kindAt es t = some (.file d0) → ∃ es1, putFile d es t = .ok es1 := by
  induction t with
  | nil => intro es h; simp [kindAt, getNode, Node.kind] at h
  | cons c rest ih =>
    intro es h
    rw [kindAt_cons] at h
    cases hl : lookupEntry c es with
    | none => simp [hl] at h
    | some n =>
      cases n with
      | dir e =>
        simp only [hl] at h
        cases rest with
        | nil => simp [kindAt, getNode, Node.kind] at h
        | cons c2 rest2 =>
          obtain ⟨e2, h2⟩ := ih e h
          exact ⟨setEntry c (.dir e2) es, by simp [putFile, hl, h2]⟩
      | file d1 =>
        cases rest with
        | nil => exact ⟨setEntry c (.file d) es, by simp [putFile, hl]⟩
        | cons c2 rest2 => simp [hl] at h
      | symlink s =>
        simp only [hl, Node.kind] at h
        split at h <;> simp at h
      | special r =>
        simp only [hl, Node.kind] at h
        split at h <;> simp at h

/-- After an entry was removed, its location is free and every other location
is as it was. -/
theorem kindAt_removeEntry (t : List String) :
    ∀ (es es1 : Entries), removeEntry es t = .ok es1 →
      ∀ w, kindAt es1 w = if w = t then none else kindAt es w := by
  induction t with
  | nil => intro es es1 h; simp [removeEntry] at h
  | cons c rest ih =>
    intro es es1 h w
    cases rest with
    | nil =>
      have hes1 : es1 = eraseEntry c es ∧
          (∀ r1, r1 ≠ [] → kindAt es (c :: r1) = none) := by
        simp only [removeEntry] at h
        cases hl : lookupEntry c es with
        | none => simp [hl] at h
        | some n =>
          cases n with
          | file d0 =>
            simp [hl] at h
            refine ⟨h.symm, ?_⟩
            intro r1 hr
            rw [kindAt_cons]; simp [hl, hr]
          | symlink s =>
            simp [hl] at h
            refine ⟨h.symm, ?_⟩
            intro r1 hr
            rw [kindAt_cons]; simp [hl, hr]
          | special r =>
            simp [hl] at h
            refine ⟨h.symm, ?_⟩
            intro r1 hr
            rw [kindAt_cons]; simp [hl, hr]
          | dir e =>
            cases e with
            | cons x xs => simp [hl] at h
            | nil =>
              simp [hl] at h
              refine ⟨h.symm, ?_⟩
              intro r1 hr
              rw [kindAt_cons]
              simp only [hl]
              cases r1 with
              | nil => exact absurd rfl hr
              | cons a b => rw [kindAt_cons]; simp [lookupEntry]
      obtain ⟨he, hbelow⟩ := hes1
      subst he
      cases w with
      | nil => simp [kindAt, getNode, Node.kind]
      | cons c1 r1 =>
        by_cases hc : c1 = c
        · subst hc
          rw [kindAt_cons, lookupEntry_eraseEntry_self]
          by_cases hr : r1 = []
          · simp [hr]
          · simp [hr, hbelow r1 hr]
        · rw [kindAt_cons, kindAt_cons, lookupEntry_eraseEntry_ne c c1 es hc]
          simp [hc]
    | cons c2 rest2 =>
      simp only [removeEntry] at h
      cases hl : lookupEntry c es with
      | none => simp [hl] at h
      | some n =>
        cases n with
        | file d0 => simp [hl] at h
        | symlink s => simp [hl] at h
        | special r => simp [hl] at h
        | dir e =>
          simp only [hl] at h
          cases hp : removeEntry e (c2 :: rest2) with
          | error x => simp [hp] at h
          | ok e2 =>
            simp only [hp, Except.ok.injEq] at h
            subst h
            cases w with
            | nil => simp [kindAt, getNode, Node.kind]
            | cons c1 r1 =>
              rw [kindAt_cons, kindAt_cons]
              by_cases hc : c1 = c
              · subst hc
                rw [lookupEntry_setEntry_self, hl]
                simp only
                rw [ih e e2 hp r1]
                simp
              · rw [lookupEntry_setEntry_ne c c1 _ es hc]
                simp [hc]

/-! ## Lemmas on path walks -/

/-- The walk of `os.Create` is the walk of `os.Stat` unless it ends in
`EISDIR`: one stretch of names. -/
theorem walkNames_creating (look : List String → Option Kind) (fl tr : Bool) :
    ∀ (names cur : List String),
      walkNames look fl true tr cur names = .done (.error .EISDIR) ∨
      walkNames look fl true tr cur names = walkNames look fl false tr cur names := by
  intro names
  induction names with
  | nil => intro cur; right; rfl
  | cons c rest ih =>
    intro cur
    by_cases h1 : c = "."
    · simp only [walkNames, h1, if_true]
      exact ih cur
    · by_cases h2 : c = ".."
      · simp only [walkNames, h1, h2, if_true, if_false]
        exact ih _
      · by_cases h3 : rest = [] ∧ tr = true
        · left
          simp [walkNames, h1, h2, h3]
        · cases hl : look (cur ++ [c]) with
          | none => right; simp [walkNames, h1, h2, h3, hl]
          | some k =>
            cases k with
            | dir =>
              have h4 : ¬ (rest = [] ∧ tr = true ∧ True) := by simpa using h3
              simp only [walkNames, h1, h2, hl, if_false]
              simp only [Bool.false_eq_true, and_false, if_false, h4]
              exact ih _
            | file d => right; simp [walkNames, h1, h2, h3, hl]
            | special d => right; simp [walkNames, h1, h2, h3, hl]
            | symlink s => right; simp [walkNames, h1, h2, h3, hl]

/-- The walk of `os.Create` is the walk of `os.Stat` unless it ends in
`EISDIR`. -/
theorem walkFrom_creating (look : List String → Option Kind) (fl : Bool) :
    ∀ (links : Nat) (tr : Bool) (cur names : List String) (r : Found),
      walkFrom look fl true links tr cur names = .ok r →
      walkFrom look fl false links tr cur names = .ok r := by
  intro links
  induction links with
  | zero =>
    intro tr cur names r h
    simp only [walkFrom] at h ⊢
    rcases walkNames_creating look fl tr names cur with h1 | h1
    · simp [h1] at h
    · rw [← h1]; exact h
  | succ n ih =>
    intro tr cur names r h
    simp only [walkFrom] at h ⊢
    rcases walkNames_creating look fl tr names cur with h1 | h1
    · simp [h1] at h
    · rw [← h1]
      cases hs : walkNames look fl true tr cur names with
      | done x => simpa [hs] using h
      | jump c1 n1 t1 =>
        simp only [hs] at h ⊢
        exact ih _ _ _ _ h

/-- A walk that ended at the location where a regular file was put since
ends at that file; a walk up to a symbolic link is as it was. One stretch of
names. -/
theorem walkNames_put (look look1 : List String → Option Kind) (t : List String)
    (d : Bytes) (hne : ∀ w, w ≠ t → look1 w = look w) (ht1 : look1 t = some (.file d))
    (ht : look t = none ∨ ∃ d0, look t = some (.file d0)) (fl tr : Bool) :
    ∀ (names cur : List String),
      (∀ r, walkNames look fl false tr cur names = .done (.ok r) →
        (r = .missing t ∨ ∃ d0, r = .node t (.file d0)) →
        walkNames look1 fl false tr cur names = .done (.ok (.node t (.file d)))) ∧
      (∀ c n tr1, walkNames look fl false tr cur names = .jump c n tr1 →
        walkNames look1 fl false tr cur names = .jump c n tr1) := by
  intro names
  induction names with
  | nil =>
    intro cur
    constructor
    · intro r h hr
      simp only [walkNames, Step.done.injEq, Except.ok.injEq] at h
      subst h
      rcases hr with hr | ⟨d0, hr⟩ <;> simp at hr
    · intro c n tr1 h
      simp [walkNames] at h
  | cons c rest ih =>
    intro cur
    by_cases h1 : c = "."
    · simp only [walkNames, h1, if_true]
      exact ih cur
    · by_cases h2 : c = ".."
      · simp only [walkNames, h1, h2, if_true, if_false]
        exact ih _
      · by_cases hl : cur ++ [c] = t
        · rcases ht with hn | ⟨d0, hf⟩
          · constructor
            · intro r h hr
              by_cases hc : rest = [] ∧ tr = false
              · simp [walkNames, h1, h2, hl, ht1, hc]
              · simp [walkNames, h1, h2, hl, hn, hc] at h
            · intro c1 n tr1 h
              by_cases hc : rest = [] ∧ tr = false
              · simp [walkNames, h1, h2, hl, hn, hc] at h
              · simp [walkNames, h1, h2, hl, hn, hc] at h
          · constructor
            · intro r h hr
              by_cases hc : rest = [] ∧ tr = false
              · simp [walkNames, h1, h2, hl, ht1, hc]
              · simp [walkNames, h1, h2, hl, hf, hc] at h
            · intro c1 n tr1 h
              by_cases hc : rest = [] ∧ tr = false
              · simp [walkNames, h1, h2, hl, hf, hc] at h
              · simp [walkNames, h1, h2, hl, hf, hc] at h
        · have hsame := hne _ hl
          cases hk : look (cur ++ [c]) with
          | none =>
            constructor
            · intro r h hr
              by_cases hc : rest = [] ∧ tr = false
              · simp [walkNames, h1, h2, hk, hc] at h
                subst h
                rcases hr with hr | ⟨d0, hr⟩
                · simp at hr; exact absurd hr hl
                · simp at hr
              · simp [walkNames, h1, h2, hk, hc] at h
            · intro c1 n tr1 h
              by_cases hc : rest = [] ∧ tr = false
              · simp [walkNames, h1, h2, hk, hc] at h
              · simp [walkNames, h1, h2, hk, hc] at h
          | some k =>
            rw [hk] at hsame
            cases k with
            | dir =>
              simp only [walkNames, h1, h2, hk, hsame, if_false]
              simp only [Bool.false_eq_true, and_false, if_false]
              exact ih _
            | file d1 =>
              constructor
              · intro r h hr
                by_cases hc : rest = [] ∧ tr = false
                · simp [walkNames, h1, h2, hk, hc] at h
                  subst h
                  rcases hr with hr | ⟨d0, hr⟩
                  · simp at hr
                  · simp at hr; exact absurd hr.1 hl
                · simp [walkNames, h1, h2, hk, hc] at h
              · intro c1 n tr1 h
                by_cases hc : rest = [] ∧ tr = false
                · simp [walkNames, h1, h2, hk, hc] at h
                · simp [walkNames, h1, h2, hk, hc] at h
            | special d1 =>
              constructor
              · intro r h hr
                by_cases hc : rest = [] ∧ tr = false
                · simp [walkNames, h1, h2, hk, hc] at h
                  subst h
                  rcases hr with hr | ⟨d0, hr⟩
                  · simp at hr
                  · simp at hr
                · simp [walkNames, h1, h2, hk, hc] at h
              · intro c1 n tr1 h
                by_cases hc : rest = [] ∧ tr = false
                · simp [walkNames, h1, h2, hk, hc] at h
                · simp [walkNames, h1, h2, hk, hc] at h
            | symlink s =>
              have hstep : walkNames look1 fl false tr cur (c :: rest) =
                  walkNames look fl false tr cur (c :: rest) := by
                simp only [walkNames, h1, h2, hk, hsame, if_false]
              constructor
              · intro r h hr
                exfalso
                by_cases hc : rest = [] ∧ fl = false
                · by_cases htr : tr = true
                  · simp [walkNames, h1, h2, hk, hc, htr] at h
                  · simp [walkNames, h1, h2, hk, hc, htr] at h
                    subst h
                    rcases hr with hr | ⟨d0, hr⟩
                    · simp at hr
                    · simp at hr
                · by_cases hs : s = ""
                  · simp [walkNames, h1, h2, hk, hc, hs] at h
                  · simp [walkNames, h1, h2, hk, hc, hs] at h
              · intro c1 n tr1 h
                rw [hstep]
                exact h

/-- A walk that ended at the location where a regular file was put since
ends at that file. -/
theorem walkFrom_put (look look1 : List String → Option Kind) (t : List String)
    (d : Bytes) (hne : ∀ w, w ≠ t → look1 w = look w) (ht1 : look1 t = some (.file d))
    (ht : look t = none ∨ ∃ d0, look t = some (.file d0)) (fl : Bool) :
    ∀ (links : Nat) (tr : Bool) (cur names : List String) (r : Found),
      walkFrom look fl false links tr cur names = .ok r →
      (r = .missing t ∨ ∃ d0, r = .node t (.file d0)) →
      walkFrom look1 fl false links tr cur names = .ok (.node t (.file d)) := by
  intro links
  induction links with
  | zero =>
    intro tr cur names r h hr
    have hw := walkNames_put look look1 t d hne ht1 ht fl tr names cur
    simp only [walkFrom] at h ⊢
    cases hs : walkNames look fl false tr cur names with
    | done x =>
      simp only [hs] at h
      subst h
      rw [hw.1 r hs hr]
    | jump c1 n1 t1 => simp [hs] at h
  | succ n ih =>
    intro tr cur names r h hr
    have hw := walkNames_put look look1 t d hne ht1 ht fl tr names cur
    simp only [walkFrom] at h ⊢
    cases hs : walkNames look fl false tr cur names with
    | done x =>
      simp only [hs] at h
      subst h
      rw [hw.1 r hs hr]
    | jump c1 n1 t1 =>
      simp only [hs] at h
      rw [hw.2 c1 n1 t1 hs]
      exact ih _ _ _ _ h hr

/-- After the entry at a location was removed, a walk for `os.Remove` that
does not end in `.` or `..` either finds nothing where the entry was, or goes
as before and does not end there. One stretch of names. -/
theorem walkNames_removed (look look1 : List String → Option Kind) (t : List String)
    (hne : ∀ w, w ≠ t → look1 w = look w) (ht1 : look1 t = none) (tr : Bool) :
    ∀ (names cur : List String) (last : String),
      names.getLast? = some last → last ≠ "." → last ≠ ".." →
      (walkNames look1 false false tr cur names = .done (.error .ENOENT) ∨
        walkNames look1 false false tr cur names = .done (.ok (.missing t))) ∨
      (walkNames look1 false false tr cur names = walkNames look false false tr cur names ∧
        (∀ l k, walkNames look false false tr cur names = .done (.ok (.node l k)) → l ≠ t) ∧
        (∀ c n tr1, walkNames look false false tr cur names = .jump c n tr1 →
          n.getLast? = some last)) := by
  intro names
  induction names with
  | nil => intro cur last h; simp at h
  | cons c rest ih =>
    intro cur last hlast hd1 hd2
    have hrest : rest ≠ [] → rest.getLast? = some last := by
      intro hr
      cases rest with
      | nil => exact absurd rfl hr
      | cons a b => simpa [List.getLast?_cons_cons] using hlast
    have hc0 : rest = [] → c = last := by
      intro hr
      subst hr
      simpa using hlast
    by_cases h1 : c = "."
    · have hr : rest ≠ [] := by
        intro hr
        exact hd1 ((hc0 hr).symm.trans h1)
      simp only [walkNames, h1, if_true]
      exact ih cur last (hrest hr) hd1 hd2
    · by_cases h2 : c = ".."
      · have hr : rest ≠ [] := by
          intro hr
          exact hd2 ((hc0 hr).symm.trans h2)
        simp only [walkNames, h1, h2, if_true, if_false]
        exact ih _ last (hrest hr) hd1 hd2
      · by_cases hl : cur ++ [c] = t
        · left
          by_cases hc : rest = [] ∧ tr = false
          · right
            simp [walkNames, h1, h2, hl, ht1, hc]
          · left
            simp [walkNames, h1, h2, hl, ht1, hc]
        · have hsame := hne _ hl
          cases hk : look (cur ++ [c]) with
          | none =>
            right
            rw [hk] at hsame
            refine ⟨by simp only [walkNames, h1, h2, hk, hsame, if_false], ?_, ?_⟩
            · intro l k h
              by_cases hc : rest = [] ∧ tr = false
              · simp [walkNames, h1, h2, hk, hc] at h
              · simp [walkNames, h1, h2, hk, hc] at h
            · intro c1 n tr1 h
              by_cases hc : rest = [] ∧ tr = false
              · simp [walkNames, h1, h2, hk, hc] at h
              · simp [walkNames, h1, h2, hk, hc] at h
          | some k =>
            rw [hk] at hsame
            cases k with
            | dir =>
              by_cases hr : rest = []
              · subst hr
                right
                refine ⟨by simp only [walkNames, h1, h2, hk, hsame, if_false], ?_, ?_⟩
                · intro l k h
                  simp [walkNames, h1, h2, hk] at h
                  rw [← h.1]
                  exact hl
                · intro c1 n tr1 h
                  simp [walkNames, h1, h2, hk] at h
              · simp only [walkNames, h1, h2, hk, hsame, if_false]
                simp only [Bool.false_eq_true, and_false, if_false]
                exact ih (cur ++ [c]) last (hrest hr) hd1 hd2
            | file d1 =>
              right
              refine ⟨by simp only [walkNames, h1, h2, hk, hsame, if_false], ?_, ?_⟩
              · intro l k h
                by_cases hc : rest = [] ∧ tr = false
                · simp [walkNames, h1, h2, hk, hc] at h
                  rw [← h.1]
                  exact hl
                · simp [walkNames, h1, h2, hk, hc] at h
              · intro c1 n tr1 h
                by_cases hc : rest = [] ∧ tr = false
                · simp [walkNames, h1, h2, hk, hc] at h
                · simp [walkNames, h1, h2, hk, hc] at h
            | special d1 =>
              right
              refine ⟨by simp only [walkNames, h1, h2, hk, hsame, if_false], ?_, ?_⟩
              · intro l k h
                by_cases hc : rest = [] ∧ tr = false
                · simp [walkNames, h1, h2, hk, hc] at h
                  rw [← h.1]
                  exact hl
                · simp [walkNames, h1, h2, hk, hc] at h
              · intro c1 n tr1 h
                by_cases hc : rest = [] ∧ tr = false
                · simp [walkNames, h1, h2, hk, hc] at h
                · simp [walkNames, h1, h2, hk, hc] at h
            | symlink s =>
              right
              refine ⟨by simp only [walkNames, h1, h2, hk, hsame, if_false], ?_, ?_⟩
              · intro l k h
                by_cases hc : rest = []
                · by_cases htr : tr = true
                  · simp [walkNames, h1, h2, hk, hc, htr] at h
                  · simp [walkNames, h1, h2, hk, hc, htr] at h
                    rw [← h.1]
                    exact hl
                · by_cases hs : s = ""
                  · simp [walkNames, h1, h2, hk, hc, hs] at h
                  · simp [walkNames, h1, h2, hk, hc, hs] at h
              · intro c1 n tr1 h
                by_cases hc : rest = []
                · by_cases htr : tr = true
                  · simp [walkNames, h1, h2, hk, hc, htr] at h
                  · simp [walkNames, h1, h2, hk, hc, htr] at h
                · by_cases hs : s = ""
                  · simp [walkNames, h1, h2, hk, hc, hs] at h
                  · simp [walkNames, h1, h2, hk, hc, hs] at h
                    rw [← h.2.1]
                    rw [List.getLast?_append, hrest hc]
                    simp

/-- After the entry at a location was removed, the walk of `os.Remove` that
had found it finds nothing there. -/
theorem walkFrom_removed (look look1 : List String → Option Kind) (t : List String)
    (hne : ∀ w, w ≠ t → look1 w = look w) (ht1 : look1 t = none) :
    ∀ (links : Nat) (tr : Bool) (cur names : List String) (last : String) (k : Kind),
      names.getLast? = some last → last ≠ "." → last ≠ ".." →
      walkFrom look false false links tr cur names = .ok (.node t k) →
      walkFrom look1 false false links tr cur names = .error .ENOENT ∨
      walkFrom look1 false false links tr cur names = .ok (.missing t) := by
  intro links
  induction links with
  | zero =>
    intro tr cur names last k hlast hd1 hd2 h
    simp only [walkFrom] at h ⊢
    rcases walkNames_removed look look1 t hne ht1 tr names cur last hlast hd1 hd2 with
      hg | ⟨hs, hn, hj⟩
    · rcases hg with hg | hg
      · left; simp [hg]
      · right; simp [hg]
    · rw [hs]
      cases hw : walkNames look false false tr cur names with
      | done x =>
        simp only [hw] at h
        subst h
        exact absurd rfl (hn t k hw)
      | jump c1 n1 t1 => simp [hw] at h
  | succ n ih =>
    intro tr cur names last k hlast hd1 hd2 h
    simp only [walkFrom] at h ⊢
    rcases walkNames_removed look look1 t hne ht1 tr names cur last hlast hd1 hd2 with
      hg | ⟨hs, hn, hj⟩
    · rcases hg with hg | hg
      · left; simp [hg]
      · right; simp [hg]
    · rw [hs]
      cases hw : walkNames look false false tr cur names with
      | done x =>
        simp only [hw] at h
        subst h
        exact absurd rfl (hn t k hw)
      | jump c1 n1 t1 =>
        simp only [hw] at h ⊢
        exact ih _ _ _ last k (hj c1 n1 t1 hw) hd1 hd2 h

/-! ## Lemmas on the operations -/

/-- Model function `osStat` returns `nil` exactly when the path leads to a node. -/
theorem osStat_eq_none_iff (fs : FS) (path : String) :
    osStat fs path = none ↔ entryExists fs path := by
  unfold osStat entryExists
  cases hw : walkPath fs true false path with
  | error e => simp
  | ok r => cases r <;> simp

/-- Model function `osReadFile` returns bytes exactly when the path holds a file with
these bytes. -/
theorem osReadFile_eq_ok_iff (fs : FS) (path : String) (d : Bytes) :
    osReadFile fs path = .ok d ↔ holdsFile fs path d := by
  unfold osReadFile holdsFile fileAt
  cases hw : walkPath fs true false path with
  | error e => simp
  | ok r =>
    cases r with
    | missing l => simp
    | node l k => cases k <;> simp

/-- A path that holds a file has an entry. -/
theorem entryExists_of_holdsFile (fs : FS) (path : String) (content : Bytes)
    (h : holdsFile fs path content) : entryExists fs path := by
  unfold holdsFile fileAt at h
  unfold entryExists
  cases hw : walkPath fs true false path with
  | error e => simp [hw] at h
  | ok r =>
    cases r with
    | missing l => simp [hw] at h
    | node l k => rfl

/-- A path that `os.Stat` reports as not existing does not lead to a special
file. -/
theorem not_specialAt_of_isNotExist (fs : FS) (path : String)
    (h : osIsNotExist (osStat fs path) = true) : ¬ specialAt fs path := by
  unfold osStat at h
  unfold specialAt
  cases hw : walkPath fs true false path with
  | error e => simp
  | ok r =>
    cases r with
    | missing l => simp
    | node l k => simp [hw, osIsNotExist] at h

/-- The walk of `os.Create` that ends at a node or a free name is the walk of
`os.Stat`. -/
theorem walkPath_creating (fs : FS) (path : String) (r : Found)
    (h : walkPath fs true true path = .ok r) : walkPath fs true false path = .ok r := by
  unfold walkPath at h ⊢
  by_cases hp : path = ""
  · simp [hp] at h
  · by_cases hz : Char.ofNat 0 ∈ path.toList
    · simp only [hp, hz, if_true, if_false] at h
      cases h
    · simp only [hp, hz, if_false] at h ⊢
      exact walkFrom_creating _ _ _ _ _ _ _ h

/-- What `os.Create` did when it returns a handle: it opened the special file the
path leads to and changed nothing, or it put an empty regular file at the
location the walk ended at, a free name or a regular file. -/
theorem osCreate_ok (fs fs1 : FS) (path : String) (f : Handle)
    (h : osCreate fs path = (fs1, .ok f)) :
    (∃ loc r, f = .special loc ∧ fs1 = fs ∧
      walkPath fs true false path = .ok (.node loc (.special r))) ∨
    (∃ loc es r, f = .file loc ∧ fs1 = ⟨es, fs.cwd⟩ ∧ putFile [] fs.root loc = .ok es ∧
      walkPath fs true false path = .ok r ∧
      (r = .missing loc ∨ ∃ d0, r = .node loc (.file d0))) := by
  unfold osCreate at h
  cases hw : walkPath fs true true path with
  | error e => simp [hw] at h
  | ok r =>
    have hw2 := walkPath_creating fs path r hw
    cases r with
    | missing loc =>
      simp only [hw] at h
      cases hp : putFile [] fs.root loc with
      | error e => simp [hp] at h
      | ok es =>
        simp only [hp, Prod.mk.injEq, Except.ok.injEq] at h
        exact Or.inr ⟨loc, es, _, h.2.symm, h.1.symm, hp, hw2, Or.inl rfl⟩
    | node loc k =>
      cases k with
      | dir => simp [hw] at h
      | symlink s => simp [hw] at h
      | special r0 =>
        simp only [hw, Prod.mk.injEq, Except.ok.injEq] at h
        exact Or.inl ⟨loc, r0, h.2.symm, h.1.symm, hw2⟩
      | file d0 =>
        simp only [hw] at h
        cases hp : putFile [] fs.root loc with
        | error e => simp [hp] at h
        | ok es =>
          simp only [hp, Prod.mk.injEq, Except.ok.injEq] at h
          exact Or.inr ⟨loc, es, _, h.2.symm, h.1.symm, hp, hw2, Or.inr ⟨d0, rfl⟩⟩

/-- After `os.Create` opened a file and `WriteString` ran on the handle, the
path leads to a node, and unless it led to a special file it holds the bytes
that were written. -/
theorem after_osCreate_write (fs fs1 : FS) (name : String) (f : Handle)
    (s : Bytes) (w : WriteResult) (h : osCreate fs name = (fs1, .ok f)) :
    entryExists (writeString fs1 f s w) name ∧
    (¬ specialAt fs name → holdsFile (writeString fs1 f s w) name (s.take w.n)) := by
  rcases osCreate_ok fs fs1 name f h with ⟨loc, r, hf, hfs, hw⟩ | ⟨loc, es, r, hf, hfs, hp, hw, hr⟩
  · subst hf
    subst hfs
    constructor
    · simp [entryExists, writeString, hw]
    · intro hnd
      exact absurd (by simp [specialAt, hw]) hnd
  · subst hf
    subst hfs
    have hk1 := kindAt_putFile [] loc fs.root es hp
    have hold := kindAt_of_putFile [] loc fs.root es hp
    obtain ⟨es2, hp2⟩ := putFile_of_kindAt (s.take w.n) [] loc es (by rw [hk1 loc]; simp)
    have hk2 := kindAt_putFile (s.take w.n) loc es es2 hp2
    have hne : ∀ x, x ≠ loc → kindAt es2 x = kindAt fs.root x := by
      intro x hx
      rw [hk2 x, hk1 x]
      simp [hx]
    have ht1 : kindAt es2 loc = some (.file (s.take w.n)) := by
      rw [hk2 loc]; simp
    have hnew : walkPath ⟨es2, fs.cwd⟩ true false name =
        .ok (.node loc (.file (s.take w.n))) := by
      unfold walkPath at hw ⊢
      by_cases hn : name = ""
      · simp [hn] at hw
      · by_cases hz : Char.ofNat 0 ∈ name.toList
        · simp only [hn, hz, if_true, if_false] at hw
          cases hw
        · simp only [hn, hz, if_false] at hw ⊢
          exact walkFrom_put (kindAt fs.root) (kindAt es2) loc (s.take w.n) hne ht1 hold
            true _ _ _ _ r hw hr
    have hws : writeString ⟨es, fs.cwd⟩ (.file loc) s w = ⟨es2, fs.cwd⟩ := by
      simp [writeString, hp2]
    rw [hws]
    constructor
    · simp [entryExists, hnew]
    · intro _
      simp [holdsFile, fileAt, hnew]

/-- Model function `osRemove` leaves the filesystem as it is when it returns an error. -/
theorem osRemove_error (fs : FS) (name : String) (e : Errno)
    (h : (osRemove fs name).2 = some e) : (osRemove fs name).1 = fs := by
  unfold osRemove at h ⊢
  cases hw : walkPath fs false false name with
  | error x => rfl
  | ok found =>
    simp only [hw] at h ⊢
    cases hlast : (pathNames name).getLast? with
    | none => rfl
    | some last =>
      simp only [hlast] at h ⊢
      by_cases h1 : last = "."
      · simp [h1]
      · by_cases h2 : last = ".."
        · simp [h2]
        · simp only [h1, h2, if_false] at h ⊢
          cases found with
          | missing l => rfl
          | node l k =>
            simp only at h ⊢
            cases hr : removeEntry fs.root l with
            | error x => rfl
            | ok es => simp [hr] at h

/-- After `os.Remove` removed the entry of a path, `os.Remove` of the path
reports `ENOENT` and changes nothing. -/
theorem osRemove_again (fs : FS) (name : String) (h : (osRemove fs name).2 = none) :
    osRemove (osRemove fs name).1 name = ((osRemove fs name).1, some .ENOENT) := by
  unfold osRemove at h
  cases hw : walkPath fs false false name with
  | error x => simp [hw] at h
  | ok found =>
    simp only [hw] at h
    cases hlast : (pathNames name).getLast? with
    | none => simp [hlast] at h
    | some last =>
      simp only [hlast] at h
      by_cases h1 : last = "."
      · simp [h1] at h
      · by_cases h2 : last = ".."
        · simp [h2] at h
        · simp only [h1, h2, if_false] at h
          cases found with
          | missing l => simp at h
          | node l k =>
            simp only at h
            cases hr : removeEntry fs.root l with
            | error x => simp [hr] at h
            | ok es =>
              have hfs : (osRemove fs name).1 = ⟨es, fs.cwd⟩ := by
                simp [osRemove, hw, hlast, h1, h2, hr]
              rw [hfs]
              have hk := kindAt_removeEntry l fs.root es hr
              have hne : ∀ x, x ≠ l → kindAt es x = kindAt fs.root x := by
                intro x hx; rw [hk x]; simp [hx]
              have ht1 : kindAt es l = none := by rw [hk l]; simp
              have hnew : walkPath ⟨es, fs.cwd⟩ false false name = .error .ENOENT ∨
                  walkPath ⟨es, fs.cwd⟩ false false name = .ok (.missing l) := by
                unfold walkPath at hw ⊢
                by_cases hn : name = ""
                · simp [hn] at hw
                · by_cases hz : Char.ofNat 0 ∈ name.toList
                  · simp only [hn, hz, if_true, if_false] at hw
                    cases hw
                  · simp only [hn, hz, if_false] at hw ⊢
                    exact walkFrom_removed (kindAt fs.root) (kindAt es) l hne ht1 _ _ _ _
                      last k hlast h1 h2 hw
              rcases hnew with hnew | hnew
              · simp [osRemove, hnew]
              · simp [osRemove, hnew, hlast, h1, h2]

/-- What a successful `Create` that is not a dry run did: the write was
complete, the response is the inputs, the path leads to a node, and unless it
led to a special file before the call the file holds the content. -/
theorem Create_success (fs : FS) (w : WriteResult) (inputs : FileArgs)
    (h : (Create fs w ⟨inputs, false⟩).2.2 = none) :
    w.err = none ∧ w.n = inputs.Content.length ∧
    (Create fs w ⟨inputs, false⟩).2.1 =
      ⟨inputs.Path, ⟨inputs.Path, inputs.Force, inputs.Content⟩⟩ ∧
    entryExists (Create fs w ⟨inputs, false⟩).1 inputs.Path ∧
    (inputs.Force = false ∨ ¬ specialAt fs inputs.Path →
      holdsFile (Create fs w ⟨inputs, false⟩).1 inputs.Path inputs.Content) := by
  unfold Create at h ⊢
  simp only at h ⊢
  split at h
  · simp at h
  · rename_i hchk
    have hdev : inputs.Force = false ∨ ¬ specialAt fs inputs.Path → ¬ specialAt fs inputs.Path := by
      intro hor
      rcases hor with hf | hd
      · apply not_specialAt_of_isNotExist
        simpa [hf] using hchk
      · exact hd
    simp only [hchk, if_false, Bool.false_eq_true] at h ⊢
    cases hc : osCreate fs inputs.Path with
    | mk fs1 r =>
      cases r with
      | error e => simp [hc] at h
      | ok f =>
        simp only [hc] at h ⊢
        cases he : w.err with
        | some e => simp [he] at h
        | none =>
          simp only [he] at h ⊢
          by_cases hlen : w.n = inputs.Content.length
          · have hw := after_osCreate_write fs fs1 inputs.Path f inputs.Content w hc
            rw [hlen, List.take_length] at hw
            simp only [hlen, ne_eq, not_true_eq_false, if_false, true_and]
            exact ⟨hw.1, fun hor => hw.2 (hdev hor)⟩
          · simp [hlen] at h

/-- What a successful `Update` that is not a dry run did: the write was
complete, the response is the inputs, the path of the prior state leads to a
node, and unless it led to a special file before the call the file there holds
the content. -/
theorem Update_success (fs : FS) (w : WriteResult) (inputs : FileArgs) (state : FileState)
    (h : (Update fs w ⟨inputs, state, false⟩).2.2 = none) :
    w.err = none ∧ w.n = inputs.Content.length ∧
    (Update fs w ⟨inputs, state, false⟩).2.1 =
      ⟨⟨inputs.Path, inputs.Force, inputs.Content⟩⟩ ∧
    entryExists (Update fs w ⟨inputs, state, false⟩).1 state.Path ∧
    (¬ specialAt fs state.Path →
      holdsFile (Update fs w ⟨inputs, state, false⟩).1 state.Path inputs.Content) := by
  unfold Update at h ⊢
  simp only [if_false, Bool.false_eq_true] at h ⊢
  cases hc : osCreate fs state.Path with
  | mk fs1 r =>
    cases r with
    | error e => simp [hc] at h
    | ok f =>
      simp only [hc] at h ⊢
      cases he : w.err with
      | some e => simp [he] at h
      | none =>
        simp only [he] at h ⊢
        by_cases hlen : w.n = inputs.Content.length
        · have hw := after_osCreate_write fs fs1 state.Path f inputs.Content w hc
          rw [hlen, List.take_length] at hw
          simp only [hlen, ne_eq, not_true_eq_false, if_false, true_and]
          exact hw
        · simp [hlen] at h

/-- The message of a short write is not the message of the existence check. -/
theorem wroteMsg_ne_fileExists (n m : Nat) :
    wroteMsg n m ≠ "file exists; pass force=true to override" := by
  intro h
  have h1 := congrArg (fun s : String => s.data.head?) h
  simp [wroteMsg, String.data_append] at h1

/-- When the existence check of `Create` does not fire, the error of `Create`
is not the error of that check. -/
theorem Create_other_error (fs : FS) (w : WriteResult) (inputs : FileArgs) (dryRun : Bool)
    (hg : (!inputs.Force && !osIsNotExist (osStat fs inputs.Path)) = false) :
    (Create fs w ⟨inputs, dryRun⟩).2.2 ≠
      some (.errorf "file exists; pass force=true to override") := by
  unfold Create
  simp only [hg, Bool.false_eq_true, if_false]
  cases dryRun with
  | true => simp
  | false =>
    simp only [Bool.false_eq_true, if_false]
    cases hc : osCreate fs inputs.Path with
    | mk fs1 r =>
      cases r with
      | error e => simp
      | ok f =>
        simp only
        cases he : w.err with
        | some e => simp
        | none =>
          by_cases hlen : w.n = inputs.Content.length
          · simp [hlen]
          · simp only [ne_eq, hlen, not_false_eq_true, if_true, Option.some.injEq,
              Error.errorf.injEq]
            exact wroteMsg_ne_fileExists _ _

/-- The description of `Force` in `Annotate` ("If existing file should be
deleted if present.") is not what `Create` does on a directory: with force the
directory stays and `os.Create` fails with `EISDIR`. -/
theorem Create_force_on_directory :
    Create ⟨[("d", .dir [])], []⟩ ⟨2, none⟩ ⟨⟨"d", true, [104, 105]⟩, false⟩ =
      (⟨[("d", .dir [])], []⟩, CreateResponse.zero, some (.pathError .EISDIR)) := by
  rfl

/-! ## The existence check of `Create` -/

/-- C1 as stated fails: "l" is a symbolic link to "t", which does not exist.
A filesystem entry exists at "l", yet `os.Stat` reports that "l" does not
exist; with force=false the dry run succeeds, and Create proper succeeds and
writes the content through the link into "t". -/
theorem Create_dangling_link_counterexample :
    hasEntry ⟨[("l", .symlink "t")], []⟩ "l" ∧
    osStat ⟨[("l", .symlink "t")], []⟩ "l" = some .ENOENT ∧
    (Create ⟨[("l", .symlink "t")], []⟩ ⟨2, none⟩ ⟨⟨"l", false, [104, 105]⟩, true⟩).2 =
      (⟨"l", FileState.zero⟩, none) ∧
    (Create ⟨[("l", .symlink "t")], []⟩ ⟨2, none⟩ ⟨⟨"l", false, [104, 105]⟩, false⟩).2 =
      (⟨"l", ⟨"l", false, [104, 105]⟩⟩, none) ∧
    holdsFile (Create ⟨[("l", .symlink "t")], []⟩ ⟨2, none⟩
      ⟨⟨"l", false, [104, 105]⟩, false⟩).1 "t" [104, 105] := by
  decide

/-- C1, amended: for every filesystem, outcome of the write, inputs and value
of dryRun, Create returns the error "file exists; pass force=true to override"
exactly when force is false and `os.Stat` of inputs.path does not report that
the path does not exist; it then leaves the filesystem as it is and returns the
zero response (no id, no state). That is the case whenever force is false and
inputs.path, symbolic links followed, leads to an existing file or directory.
With force=true Create never returns that error. -/
theorem Create_existence_check (fs : FS) (w : WriteResult) (inputs : FileArgs)
    (dryRun : Bool) :
    ((Create fs w ⟨inputs, dryRun⟩).2.2 =
        some (.errorf "file exists; pass force=true to override") ↔
      inputs.Force = false ∧ osIsNotExist (osStat fs inputs.Path) = false) ∧
    (inputs.Force = false → osIsNotExist (osStat fs inputs.Path) = false →
      Create fs w ⟨inputs, dryRun⟩ =
        (fs, CreateResponse.zero,
          some (.errorf "file exists; pass force=true to override"))) ∧
    (inputs.Force = false → entryExists fs inputs.Path →
      Create fs w ⟨inputs, dryRun⟩ =
        (fs, CreateResponse.zero,
          some (.errorf "file exists; pass force=true to override"))) ∧
    (inputs.Force = true →
      (Create fs w ⟨inputs, dryRun⟩).2.2 ≠
        some (.errorf "file exists; pass force=true to override")) := by
  have hfire : inputs.Force = false → osIsNotExist (osStat fs inputs.Path) = false →
      Create fs w ⟨inputs, dryRun⟩ =
        (fs, CreateResponse.zero,
          some (.errorf "file exists; pass force=true to override")) := by
    intro hf hs
    simp [Create, hf, hs]
  refine ⟨?_, hfire, ?_, ?_⟩
  · constructor
    · intro h
      by_cases hg : (!inputs.Force && !osIsNotExist (osStat fs inputs.Path)) = false
      · exact absurd h (Create_other_error fs w inputs dryRun hg)
      · simpa using hg
    · intro h
      rw [hfire h.1 h.2]
  · intro hf he
    rw [← osStat_eq_none_iff] at he
    exact hfire hf (by simp [he, osIsNotExist])
  · intro hf
    exact Create_other_error fs w inputs dryRun (by simp [hf])

/-- Witness of C1 (amended): a dry run without force on an existing file is refused, and
with force on the same file the refusal does not occur. -/
theorem Create_existence_check_witness :
    entryExists ⟨[("a.txt", .file [104])], []⟩ "a.txt" ∧
    Create ⟨[("a.txt", .file [104])], []⟩ ⟨2, none⟩ ⟨⟨"a.txt", false, [104, 105]⟩, true⟩ =
      (⟨[("a.txt", .file [104])], []⟩, CreateResponse.zero,
        some (.errorf "file exists; pass force=true to override")) ∧
    (Create ⟨[("a.txt", .file [104])], []⟩ ⟨2, none⟩
      ⟨⟨"a.txt", true, [104, 105]⟩, false⟩).2.2 ≠
      some (.errorf "file exists; pass force=true to override") :=
  ⟨by decide,
   (Create_existence_check ⟨[("a.txt", .file [104])], []⟩ ⟨2, none⟩
      ⟨"a.txt", false, [104, 105]⟩ true).2.2.1 rfl (by decide),
   (Create_existence_check ⟨[("a.txt", .file [104])], []⟩ ⟨2, none⟩
      ⟨"a.txt", true, [104, 105]⟩ false).2.2.2 rfl⟩

/-! ## Dry run -/

/-- C2: for every filesystem, outcome of the write, inputs and prior state,
Create with dryRun=true and Update with dryRun=true return the filesystem they
were given, whether they succeed or fail; when the dry-run Create succeeds its
response is id = inputs.path with the zero state, and the dry-run Update
returns the zero state and no error. -/
theorem dryRun_leaves_filesystem (fs : FS) (w : WriteResult) (inputs : FileArgs)
    (state : FileState) :
    (Create fs w ⟨inputs, true⟩).1 = fs ∧
    (Update fs w ⟨inputs, state, true⟩).1 = fs ∧
    ((Create fs w ⟨inputs, true⟩).2.2 = none →
      (Create fs w ⟨inputs, true⟩).2.1 = ⟨inputs.Path, FileState.zero⟩) ∧
    (Update fs w ⟨inputs, state, true⟩).2 = (UpdateResponse.zero, none) := by
  refine ⟨?_, ?_, ?_, ?_⟩
  · unfold Create
    split <;> simp
  · simp [Update]
  · unfold Create
    split
    · simp
    · simp
  · simp [Update]

/-- Witness of C2: a dry-run Create with force on an existing file succeeds with the id
alone. -/
theorem dryRun_leaves_filesystem_witness :
    (Create ⟨[("a.txt", .file [104])], []⟩ ⟨2, none⟩
      ⟨⟨"a.txt", true, [104, 105]⟩, true⟩).2.2 = none ∧
    (Create ⟨[("a.txt", .file [104])], []⟩ ⟨2, none⟩
      ⟨⟨"a.txt", true, [104, 105]⟩, true⟩).2.1 = ⟨"a.txt", FileState.zero⟩ :=
  ⟨by decide,
   (dryRun_leaves_filesystem ⟨[("a.txt", .file [104])], []⟩ ⟨2, none⟩
      ⟨"a.txt", true, [104, 105]⟩ FileState.zero).2.2.1 (by decide)⟩

/-! ## Create, then Read -/

/-- C3 as stated fails: "/dev/null" is a special file, a device. Create with force=true
succeeds there, the write of 2 bytes returning 2, and Read of the path then
succeeds with the empty content, not the content created. -/
theorem Create_Read_special_counterexample :
    (Create ⟨[("dev", .dir [("null", .special [])])], []⟩ ⟨2, none⟩
      ⟨⟨"/dev/null", true, [104, 105]⟩, false⟩).2 =
      (⟨"/dev/null", ⟨"/dev/null", true, [104, 105]⟩⟩, none) ∧
    (Read (Create ⟨[("dev", .dir [("null", .special [])])], []⟩ ⟨2, none⟩
      ⟨⟨"/dev/null", true, [104, 105]⟩, false⟩).1 ⟨"/dev/null", FileState.zero⟩).2 = none ∧
    (Read (Create ⟨[("dev", .dir [("null", .special [])])], []⟩ ⟨2, none⟩
      ⟨⟨"/dev/null", true, [104, 105]⟩, false⟩).1
      ⟨"/dev/null", FileState.zero⟩).1.State.Content = [] ∧
    (Read (Create ⟨[("dev", .dir [("null", .special [])])], []⟩ ⟨2, none⟩
      ⟨⟨"/dev/null", true, [104, 105]⟩, false⟩).1
      ⟨"/dev/null", FileState.zero⟩).1.State.Content ≠ [104, 105] := by
  decide

/-- C3, amended: for every filesystem, outcome of the write, inputs (path,
force, content) and prior state: when Create that is not a dry run succeeds,
and force is false or the path does not lead to a special file (a device, a
FIFO, a file of a pseudo filesystem), Read with id = path
on the resulting filesystem succeeds and returns a state whose content is the
content created and whose path is the path. -/
theorem Create_Read_roundtrip (fs : FS) (w : WriteResult) (inputs : FileArgs)
    (prior : FileState) (h : (Create fs w ⟨inputs, false⟩).2.2 = none)
    (hdev : inputs.Force = false ∨ ¬ specialAt fs inputs.Path) :
    (Read (Create fs w ⟨inputs, false⟩).1 ⟨inputs.Path, prior⟩).2 = none ∧
    (Read (Create fs w ⟨inputs, false⟩).1 ⟨inputs.Path, prior⟩).1.State.Content =
      inputs.Content ∧
    (Read (Create fs w ⟨inputs, false⟩).1 ⟨inputs.Path, prior⟩).1.State.Path =
      inputs.Path := by
  have hh := (Create_success fs w inputs h).2.2.2.2 hdev
  rw [← osReadFile_eq_ok_iff] at hh
  simp [Read, hh]

/-- Witness of C3 (amended): Create with force over a longer file with other bytes, then
Read; and Create without force through a dangling symbolic link, then Read. -/
theorem Create_Read_roundtrip_witness :
    (Create ⟨[("a.txt", .file [1, 2, 3, 4])], []⟩ ⟨2, none⟩
      ⟨⟨"a.txt", true, [104, 105]⟩, false⟩).2.2 = none ∧
    ¬ specialAt ⟨[("a.txt", .file [1, 2, 3, 4])], []⟩ "a.txt" ∧
    (Read (Create ⟨[("a.txt", .file [1, 2, 3, 4])], []⟩ ⟨2, none⟩
      ⟨⟨"a.txt", true, [104, 105]⟩, false⟩).1 ⟨"a.txt", FileState.zero⟩).1.State.Content =
      [104, 105] ∧
    (Read (Create ⟨[("l", .symlink "t")], []⟩ ⟨2, none⟩
      ⟨⟨"l", false, [104, 105]⟩, false⟩).1 ⟨"l", FileState.zero⟩).1.State.Content =
      [104, 105] :=
  ⟨by decide, by decide,
   (Create_Read_roundtrip ⟨[("a.txt", .file [1, 2, 3, 4])], []⟩ ⟨2, none⟩
      ⟨"a.txt", true, [104, 105]⟩ FileState.zero (by decide) (Or.inr (by decide))).2.1,
   (Create_Read_roundtrip ⟨[("l", .symlink "t")], []⟩ ⟨2, none⟩
      ⟨"l", false, [104, 105]⟩ FileState.zero (by decide) (Or.inl rfl)).2.1⟩

/-! ## The path of the recorded state -/

/-- C4 as stated fails. For Update: the file "a" of the prior state is updated
with inputs that name the path "b"; Update succeeds and returns a state with
path "b", the new bytes are in "a", and no file is at "b". For Create: on the
special file "/dev/null" with force=true Create succeeds and returns the content,
and the file at the path does not hold it. -/
theorem Update_other_path_counterexample :
    (Update ⟨[("a", .file [111])], []⟩ ⟨1, none⟩
      ⟨⟨"b", false, [120]⟩, ⟨"a", false, [111]⟩, false⟩).2 =
      (⟨⟨"b", false, [120]⟩⟩, none) ∧
    ¬ holdsFile (Update ⟨[("a", .file [111])], []⟩ ⟨1, none⟩
      ⟨⟨"b", false, [120]⟩, ⟨"a", false, [111]⟩, false⟩).1 "b" [120] ∧
    fileAt (Update ⟨[("a", .file [111])], []⟩ ⟨1, none⟩
      ⟨⟨"b", false, [120]⟩, ⟨"a", false, [111]⟩, false⟩).1 "b" = none ∧
    holdsFile (Update ⟨[("a", .file [111])], []⟩ ⟨1, none⟩
      ⟨⟨"b", false, [120]⟩, ⟨"a", false, [111]⟩, false⟩).1 "a" [120] ∧
    (Create ⟨[("dev", .dir [("null", .special [])])], []⟩ ⟨2, none⟩
      ⟨⟨"/dev/null", true, [104, 105]⟩, false⟩).2 =
      (⟨"/dev/null", ⟨"/dev/null", true, [104, 105]⟩⟩, none) ∧
    ¬ holdsFile (Create ⟨[("dev", .dir [("null", .special [])])], []⟩ ⟨2, none⟩
      ⟨⟨"/dev/null", true, [104, 105]⟩, false⟩).1 "/dev/null" [104, 105] := by
  decide

/-- C4, amended: a successful Create that is not a dry run returns the state
(inputs.path, inputs.force, inputs.content), and when force is false or the
path does not lead to a special file the filesystem then holds a file at the
returned state's path with the returned state's content. A successful Update
that is not a dry run returns the state (inputs.path, inputs.force,
inputs.content); when state.path does not lead to a special file the filesystem then
holds a file with the returned state's content at state.path, the path of the
prior state, which is the returned state's path when inputs.path equals
state.path. After a successful Read the filesystem holds a file at the
returned state's path with the returned state's content, and that path is the
id. -/
theorem state_path_on_disk (fs : FS) (w : WriteResult) (inputs : FileArgs)
    (state : FileState) (rreq : ReadRequest) :
    ((Create fs w ⟨inputs, false⟩).2.2 = none →
      (Create fs w ⟨inputs, false⟩).2.1.Output =
        ⟨inputs.Path, inputs.Force, inputs.Content⟩) ∧
    ((Create fs w ⟨inputs, false⟩).2.2 = none →
      inputs.Force = false ∨ ¬ specialAt fs inputs.Path →
      holdsFile (Create fs w ⟨inputs, false⟩).1
        (Create fs w ⟨inputs, false⟩).2.1.Output.Path
        (Create fs w ⟨inputs, false⟩).2.1.Output.Content) ∧
    ((Update fs w ⟨inputs, state, false⟩).2.2 = none →
      (Update fs w ⟨inputs, state, false⟩).2.1.Output =
        ⟨inputs.Path, inputs.Force, inputs.Content⟩) ∧
    ((Update fs w ⟨inputs, state, false⟩).2.2 = none → ¬ specialAt fs state.Path →
      holdsFile (Update fs w ⟨inputs, state, false⟩).1 state.Path
        (Update fs w ⟨inputs, state, false⟩).2.1.Output.Content) ∧
    ((Update fs w ⟨inputs, state, false⟩).2.2 = none → ¬ specialAt fs state.Path →
      inputs.Path = state.Path →
      holdsFile (Update fs w ⟨inputs, state, false⟩).1
        (Update fs w ⟨inputs, state, false⟩).2.1.Output.Path
        (Update fs w ⟨inputs, state, false⟩).2.1.Output.Content) ∧
    ((Read fs rreq).2 = none →
      (Read fs rreq).1.State.Path = rreq.ID ∧
      holdsFile fs (Read fs rreq).1.State.Path (Read fs rreq).1.State.Content) := by
  refine ⟨?_, ?_, ?_, ?_, ?_, ?_⟩
  · intro h
    rw [(Create_success fs w inputs h).2.2.1]
  · intro h hdev
    obtain ⟨_, _, hr, _, hh⟩ := Create_success fs w inputs h
    rw [hr]
    exact hh hdev
  · intro h
    rw [(Update_success fs w inputs state h).2.2.1]
  · intro h hdev
    obtain ⟨_, _, hr, _, hh⟩ := Update_success fs w inputs state h
    rw [hr]
    exact hh hdev
  · intro h hdev hp
    obtain ⟨_, _, hr, _, hh⟩ := Update_success fs w inputs state h
    rw [hr]
    simp only
    rw [hp]
    exact hh hdev
  · intro h
    unfold Read at h ⊢
    cases hr : osReadFile fs rreq.ID with
    | error e => simp [hr] at h
    | ok d =>
      simp only
      exact ⟨trivial, (osReadFile_eq_ok_iff fs rreq.ID d).1 hr⟩

/-- Witness of C4 (amended): Create on an empty filesystem, Update of the file "a" in
place, Update with another path in the inputs, and Read of the file "a". -/
theorem state_path_on_disk_witness :
    holdsFile (Create ⟨[], []⟩ ⟨1, none⟩ ⟨⟨"a", false, [120]⟩, false⟩).1
      (Create ⟨[], []⟩ ⟨1, none⟩ ⟨⟨"a", false, [120]⟩, false⟩).2.1.Output.Path
      (Create ⟨[], []⟩ ⟨1, none⟩ ⟨⟨"a", false, [120]⟩, false⟩).2.1.Output.Content ∧
    holdsFile (Update ⟨[("a", .file [111])], []⟩ ⟨1, none⟩
        ⟨⟨"a", false, [120]⟩, ⟨"a", false, [111]⟩, false⟩).1
      (Update ⟨[("a", .file [111])], []⟩ ⟨1, none⟩
        ⟨⟨"a", false, [120]⟩, ⟨"a", false, [111]⟩, false⟩).2.1.Output.Path
      (Update ⟨[("a", .file [111])], []⟩ ⟨1, none⟩
        ⟨⟨"a", false, [120]⟩, ⟨"a", false, [111]⟩, false⟩).2.1.Output.Content ∧
    (Update ⟨[("a", .file [111])], []⟩ ⟨1, none⟩
        ⟨⟨"b", false, [120]⟩, ⟨"a", false, [111]⟩, false⟩).2.1.Output =
      ⟨"b", false, [120]⟩ ∧
    holdsFile ⟨[("a", .file [111])], []⟩
      (Read ⟨[("a", .file [111])], []⟩ ⟨"a", FileState.zero⟩).1.State.Path
      (Read ⟨[("a", .file [111])], []⟩ ⟨"a", FileState.zero⟩).1.State.Content :=
  ⟨(state_path_on_disk ⟨[], []⟩ ⟨1, none⟩ ⟨"a", false, [120]⟩ FileState.zero
      ⟨"a", FileState.zero⟩).2.1 (by decide) (Or.inl rfl),
   (state_path_on_disk ⟨[("a", .file [111])], []⟩ ⟨1, none⟩ ⟨"a", false, [120]⟩
      ⟨"a", false, [111]⟩ ⟨"a", FileState.zero⟩).2.2.2.2.1 (by decide) (by decide) rfl,
   (state_path_on_disk ⟨[("a", .file [111])], []⟩ ⟨1, none⟩ ⟨"b", false, [120]⟩
      ⟨"a", false, [111]⟩ ⟨"a", FileState.zero⟩).2.2.1 (by decide),
   ((state_path_on_disk ⟨[("a", .file [111])], []⟩ ⟨1, none⟩ ⟨"a", false, [120]⟩
      ⟨"a", false, [111]⟩ ⟨"a", FileState.zero⟩).2.2.2.2.2 (by decide)).2⟩

/-! ## Delete twice -/

/-- C5 as stated fails. The path "d" is a directory with an entry: the first
Delete returns the error of `os.Remove` and leaves the directory, and so does
the second. The path "a/b" has no filesystem entry, "a" being a regular file,
and Delete returns an error there. -/
theorem Delete_twice_counterexample :
    (Delete (Delete ⟨[("d", .dir [("x", .file [])])], []⟩ ⟨⟨"d", false, []⟩⟩).1
      ⟨⟨"d", false, []⟩⟩).2 = some (.pathError .ENOTEMPTY) ∧
    ¬ entryExists ⟨[("a", .file [])], []⟩ "a/b" ∧
    ¬ hasEntry ⟨[("a", .file [])], []⟩ "a/b" ∧
    (Delete ⟨[("a", .file [])], []⟩ ⟨⟨"a/b", false, []⟩⟩).2 =
      some (.pathError .ENOTDIR) := by
  decide

/-- C5, amended: when the first Delete returns no error, Delete again on the
resulting filesystem returns no error and leaves that filesystem as it is; and
when `os.Remove` of state.path reports that the path does not exist, Delete
returns no error and leaves the filesystem as it is. -/
theorem Delete_idempotent (fs : FS) (state : FileState) :
    ((Delete fs ⟨state⟩).2 = none →
      Delete (Delete fs ⟨state⟩).1 ⟨state⟩ = ((Delete fs ⟨state⟩).1, none)) ∧
    ((osRemove fs state.Path).2 = some .ENOENT → Delete fs ⟨state⟩ = (fs, none)) := by
  have hmiss : ∀ fs0 : FS, (osRemove fs0 state.Path).2 = some .ENOENT →
      Delete fs0 ⟨state⟩ = (fs0, none) := by
    intro fs0 h
    have hfs := osRemove_error fs0 state.Path .ENOENT h
    unfold Delete
    cases hr : osRemove fs0 state.Path with
    | mk fs1 err =>
      rw [hr] at h hfs
      simp only at h hfs
      subst h
      subst hfs
      simp [osIsNotExist]
  refine ⟨?_, hmiss fs⟩
  intro h
  cases he : (osRemove fs state.Path).2 with
  | none =>
    have h2 := osRemove_again fs state.Path he
    have h1 : (Delete fs ⟨state⟩).1 = (osRemove fs state.Path).1 := by
      unfold Delete
      cases hr : osRemove fs state.Path with
      | mk fs1 err => simp only; split <;> rfl
    rw [h1]
    exact hmiss _ (by rw [h2])
  | some e =>
    have hE : e = .ENOENT := by
      unfold Delete at h
      cases hr : osRemove fs state.Path with
      | mk fs1 err =>
        rw [hr] at h he
        simp only at h he
        subst he
        cases e <;> simp [osIsNotExist] at h ⊢
    subst hE
    have h0 := hmiss fs he
    rw [h0]
    exact h0

/-- Witness of C5 (amended): Delete of an existing file, which is gone then, Delete of
it again, and Delete of a missing file. -/
theorem Delete_idempotent_witness :
    (Delete ⟨[("a", .file [104])], []⟩ ⟨⟨"a", false, [104]⟩⟩).2 = none ∧
    ¬ hasEntry (Delete ⟨[("a", .file [104])], []⟩ ⟨⟨"a", false, [104]⟩⟩).1 "a" ∧
    (Delete (Delete ⟨[("a", .file [104])], []⟩ ⟨⟨"a", false, [104]⟩⟩).1
      ⟨⟨"a", false, [104]⟩⟩).2 = none ∧
    (osRemove ⟨[], []⟩ "missing.txt").2 = some .ENOENT ∧
    Delete ⟨[], []⟩ ⟨⟨"missing.txt", false, []⟩⟩ = (⟨[], []⟩, none) :=
  ⟨by decide,
   by decide,
   by rw [(Delete_idempotent ⟨[("a", .file [104])], []⟩ ⟨"a", false, [104]⟩).1 (by decide)],
   by decide,
   (Delete_idempotent ⟨[], []⟩ ⟨"missing.txt", false, []⟩).2 (by decide)⟩

/-! ## The count of bytes written -/

/-- C6 as stated fails: the write returns 0 bytes of 2 with the error ENOSPC;
Create and Update return that error, which is not the error that reports
"wrote 0/2 bytes". -/
theorem short_write_error_counterexample :
    (Create ⟨[], []⟩ ⟨0, some .ENOSPC⟩ ⟨⟨"a", false, [104, 105]⟩, false⟩).2 =
      (CreateResponse.zero, some (.pathError .ENOSPC)) ∧
    (Create ⟨[], []⟩ ⟨0, some .ENOSPC⟩ ⟨⟨"a", false, [104, 105]⟩, false⟩).2.2 ≠
      some (.errorf (wroteMsg 0 2)) ∧
    (Update ⟨[], []⟩ ⟨0, some .ENOSPC⟩
      ⟨⟨"a", false, [104, 105]⟩, ⟨"a", false, []⟩, false⟩).2 =
      (UpdateResponse.zero, some (.pathError .ENOSPC)) ∧
    (Update ⟨[], []⟩ ⟨0, some .ENOSPC⟩
      ⟨⟨"a", false, [104, 105]⟩, ⟨"a", false, []⟩, false⟩).2.2 ≠
      some (.errorf (wroteMsg 0 2)) := by
  decide

/-- C6, amended: for every outcome (n, err) of the write, Create and Update
that are not dry runs return success only if err is nil and n is the byte
length of inputs.content. When the write is reached (the existence check of
Create passes and `os.Create` opens the file): if err is not nil they return
err and no state, whatever n is; if err is nil and n differs from the length
they return the error "wrote n/len bytes" and no state. -/
theorem write_count_checked (fs : FS) (w : WriteResult) (inputs : FileArgs)
    (state : FileState) :
    ((Create fs w ⟨inputs, false⟩).2.2 = none →
      w.err = none ∧ w.n = inputs.Content.length) ∧
    ((Update fs w ⟨inputs, state, false⟩).2.2 = none →
      w.err = none ∧ w.n = inputs.Content.length) ∧
    (∀ fs1 f, (!inputs.Force && !osIsNotExist (osStat fs inputs.Path)) = false →
      osCreate fs inputs.Path = (fs1, .ok f) →
      (∀ e, w.err = some e →
        (Create fs w ⟨inputs, false⟩).2 = (CreateResponse.zero, some (.pathError e))) ∧
      (w.err = none → w.n ≠ inputs.Content.length →
        (Create fs w ⟨inputs, false⟩).2 =
          (CreateResponse.zero,
            some (.errorf (wroteMsg w.n inputs.Content.length))))) ∧
    (∀ fs1 f, osCreate fs state.Path = (fs1, .ok f) →
      (∀ e, w.err = some e →
        (Update fs w ⟨inputs, state, false⟩).2 =
          (UpdateResponse.zero, some (.pathError e))) ∧
      (w.err = none → w.n ≠ inputs.Content.length →
        (Update fs w ⟨inputs, state, false⟩).2 =
          (UpdateResponse.zero,
            some (.errorf (wroteMsg w.n inputs.Content.length))))) := by
  refine ⟨?_, ?_, ?_, ?_⟩
  · intro h
    exact ⟨(Create_success fs w inputs h).1, (Create_success fs w inputs h).2.1⟩
  · intro h
    exact ⟨(Update_success fs w inputs state h).1, (Update_success fs w inputs state h).2.1⟩
  · intro fs1 f hg hc
    constructor
    · intro e he
      simp [Create, hg, hc, he]
    · intro he hlen
      simp [Create, hg, hc, he, hlen]
  · intro fs1 f hc
    constructor
    · intro e he
      simp [Update, hc, he]
    · intro he hlen
      simp [Update, hc, he, hlen]

/-- Witness of C6 (amended): a complete write succeeds; a write of 1 byte of 2 without
error is reported as "wrote 1/2 bytes" by Create and by Update. -/
theorem write_count_checked_witness :
    ((2 : Nat) = ([104, 105] : Bytes).length) ∧
    (Create ⟨[], []⟩ ⟨1, none⟩ ⟨⟨"a", false, [104, 105]⟩, false⟩).2 =
      (CreateResponse.zero, some (.errorf (wroteMsg 1 2))) ∧
    (Update ⟨[], []⟩ ⟨1, none⟩ ⟨⟨"a", false, [104, 105]⟩, ⟨"a", false, []⟩, false⟩).2 =
      (UpdateResponse.zero, some (.errorf (wroteMsg 1 2))) :=
  ⟨((write_count_checked ⟨[], []⟩ ⟨2, none⟩ ⟨"a", false, [104, 105]⟩ ⟨"a", false, []⟩).1
      (by decide)).2,
   ((write_count_checked ⟨[], []⟩ ⟨1, none⟩ ⟨"a", false, [104, 105]⟩ ⟨"a", false, []⟩).2.2.1
      ⟨[("a", .file [])], []⟩ (.file ["a"]) (by decide) rfl).2 rfl (by decide),
   ((write_count_checked ⟨[], []⟩ ⟨1, none⟩ ⟨"a", false, [104, 105]⟩ ⟨"a", false, []⟩).2.2.2
      ⟨[("a", .file [])], []⟩ (.file ["a"]) rfl).2 rfl (by decide)⟩

/-! ## Diff -/

/-- The `detailedDiff` map of `Diff`, key by key. -/
theorem diffMap_get (fs : FS) (req : DiffRequest) (k : String) :
    DiffMap.get k (diffMap fs req) =
      if k = "content" then
        (if req.Inputs.Content ≠ req.State.Content then some ⟨.Update, false⟩ else none)
      else if k = "force" then
        (if req.Inputs.Force ≠ req.State.Force then some ⟨.Update, false⟩ else none)
      else if k = "path" then
        (if req.Inputs.Path ≠ req.State.Path then some ⟨.UpdateReplace, false⟩
         else if osIsNotExist (osStat fs req.Inputs.Path) then some ⟨.Add, false⟩
         else none)
      else none := by
  unfold diffMap
  by_cases hc : req.Inputs.Content = req.State.Content <;>
  by_cases hf : req.Inputs.Force = req.State.Force <;>
  by_cases hp : req.Inputs.Path = req.State.Path <;>
  by_cases hs : osIsNotExist (osStat fs req.Inputs.Path) = true <;>
  by_cases k1 : k = "content" <;>
  by_cases k2 : k = "force" <;>
  by_cases k3 : k = "path" <;>
  simp_all [DiffMap.set, DiffMap.get, Ne.symm]

/-- The `detailedDiff` map of `Diff` is empty exactly when nothing differs and
`os.Stat` does not report the path as not existing. -/
theorem diffMap_eq_nil_iff (fs : FS) (req : DiffRequest) :
    diffMap fs req = [] ↔
      req.Inputs.Content = req.State.Content ∧ req.Inputs.Force = req.State.Force ∧
      req.Inputs.Path = req.State.Path ∧
      osIsNotExist (osStat fs req.Inputs.Path) = false := by
  unfold diffMap
  by_cases hc : req.Inputs.Content = req.State.Content <;>
  by_cases hf : req.Inputs.Force = req.State.Force <;>
  by_cases hp : req.Inputs.Path = req.State.Path <;>
  by_cases hs : osIsNotExist (osStat fs req.Inputs.Path) = true <;>
  simp_all [DiffMap.set]

/-- C7 as stated fails: "cfg" is a regular file, inputs and state both name
the path "cfg/app.txt"; no filesystem entry and no file is at that path, and
the detailedDiff of Diff has no "path" key. -/
theorem Diff_path_add_counterexample :
    ¬ entryExists ⟨[("cfg", .file [])], []⟩ "cfg/app.txt" ∧
    ¬ hasEntry ⟨[("cfg", .file [])], []⟩ "cfg/app.txt" ∧
    fileAt ⟨[("cfg", .file [])], []⟩ "cfg/app.txt" = none ∧
    DiffMap.get "path" (Diff ⟨[("cfg", .file [])], []⟩
      ⟨⟨"cfg/app.txt", false, [104]⟩, ⟨"cfg/app.txt", false, [104]⟩⟩).1.DetailedDiff =
      none := by
  decide

/-- C7, amended: for every inputs, state and filesystem, Diff returns no
error and deleteBeforeReplace=true; its detailedDiff maps "content" to Update
exactly when the contents differ, maps "force" to Update exactly when the
force flags differ, maps "path" to UpdateReplace when the paths differ and
otherwise to Add exactly when `os.Stat` reports that the path does not exist,
and has no other key. -/
theorem Diff_classification (fs : FS) (req : DiffRequest) :
    (Diff fs req).2 = none ∧
    (Diff fs req).1.DeleteBeforeReplace = true ∧
    DiffMap.get "content" (Diff fs req).1.DetailedDiff =
      (if req.Inputs.Content ≠ req.State.Content then some ⟨.Update, false⟩ else none) ∧
    DiffMap.get "force" (Diff fs req).1.DetailedDiff =
      (if req.Inputs.Force ≠ req.State.Force then some ⟨.Update, false⟩ else none) ∧
    DiffMap.get "path" (Diff fs req).1.DetailedDiff =
      (if req.Inputs.Path ≠ req.State.Path then some ⟨.UpdateReplace, false⟩
       else if osIsNotExist (osStat fs req.Inputs.Path) then some ⟨.Add, false⟩
       else none) ∧
    (∀ k, k ≠ "content" → k ≠ "force" → k ≠ "path" →
      DiffMap.get k (Diff fs req).1.DetailedDiff = none) := by
  refine ⟨rfl, rfl, ?_, ?_, ?_, ?_⟩
  · simp only [Diff, diffMap_get]
    simp
  · simp only [Diff, diffMap_get]
    simp
  · simp only [Diff, diffMap_get]
    simp
  · intro k k1 k2 k3
    simp only [Diff, diffMap_get]
    simp [k1, k2, k3]

/-- Witness of C7 (amended): the key "other" is not in the map, and the three keys are
as the rule says when content and force differ and the file is in place. -/
theorem Diff_classification_witness :
    DiffMap.get "other" (Diff ⟨[("a", .file [104])], []⟩
      ⟨⟨"a", true, [105]⟩, ⟨"a", false, [104]⟩⟩).1.DetailedDiff = none ∧
    DiffMap.get "content" (Diff ⟨[("a", .file [104])], []⟩
      ⟨⟨"a", true, [105]⟩, ⟨"a", false, [104]⟩⟩).1.DetailedDiff = some ⟨.Update, false⟩ ∧
    DiffMap.get "path" (Diff ⟨[("a", .file [104])], []⟩
      ⟨⟨"a", true, [105]⟩, ⟨"a", false, [104]⟩⟩).1.DetailedDiff = none :=
  ⟨(Diff_classification ⟨[("a", .file [104])], []⟩
      ⟨⟨"a", true, [105]⟩, ⟨"a", false, [104]⟩⟩).2.2.2.2.2 "other"
      (by decide) (by decide) (by decide),
   by decide, by decide⟩

/-- C8 as stated fails: "a" is a regular file, inputs and state are identical
with the path "a/b"; Diff yields hasChanges=false and no file (no filesystem
entry at all) exists at that path. -/
theorem Diff_hasChanges_counterexample :
    (Diff ⟨[("a", .file [])], []⟩
      ⟨⟨"a/b", false, [104]⟩, ⟨"a/b", false, [104]⟩⟩).1.HasChanges = false ∧
    ¬ entryExists ⟨[("a", .file [])], []⟩ "a/b" ∧
    ¬ holdsFile ⟨[("a", .file [])], []⟩ "a/b" [104] := by
  decide

/-- C8, amended: for every inputs, state and filesystem, Diff yields
hasChanges=false if and only if the contents are equal, the force flags are
equal, the paths are equal and `os.Stat` does not report the path as not
existing; hasChanges=false comes with an empty detailedDiff; and with
identical inputs and state and an existing entry at the path Diff yields
hasChanges=false and an empty detailedDiff. -/
theorem Diff_hasChanges (fs : FS) (req : DiffRequest) :
    ((Diff fs req).1.HasChanges = false ↔
      req.Inputs.Content = req.State.Content ∧ req.Inputs.Force = req.State.Force ∧
      req.Inputs.Path = req.State.Path ∧
      osIsNotExist (osStat fs req.Inputs.Path) = false) ∧
    ((Diff fs req).1.HasChanges = false ↔ (Diff fs req).1.DetailedDiff = []) ∧
    (req.Inputs.Content = req.State.Content → req.Inputs.Force = req.State.Force →
      req.Inputs.Path = req.State.Path → entryExists fs req.Inputs.Path →
      (Diff fs req).1.HasChanges = false ∧ (Diff fs req).1.DetailedDiff = []) := by
  have hnil : (Diff fs req).1.HasChanges = false ↔ diffMap fs req = [] := by
    simp [Diff, List.length_eq_zero]
  refine ⟨?_, ?_, ?_⟩
  · rw [hnil]
    exact diffMap_eq_nil_iff fs req
  · rw [hnil]
    simp [Diff]
  · intro hc hf hp he
    rw [← osStat_eq_none_iff] at he
    have h0 : diffMap fs req = [] :=
      (diffMap_eq_nil_iff fs req).2 ⟨hc, hf, hp, by simp [he, osIsNotExist]⟩
    exact ⟨hnil.2 h0, by simp [Diff, h0]⟩

/-- Witness of C8 (amended): identical inputs and state with the file in place. -/
theorem Diff_hasChanges_witness :
    entryExists ⟨[("a", .file [104])], []⟩ "a" ∧
    (Diff ⟨[("a", .file [104])], []⟩
      ⟨⟨"a", false, [104]⟩, ⟨"a", false, [104]⟩⟩).1.HasChanges = false ∧
    (Diff ⟨[("a", .file [104])], []⟩
      ⟨⟨"a", false, [104]⟩, ⟨"a", false, [104]⟩⟩).1.DetailedDiff = [] :=
  ⟨by decide,
   (Diff_hasChanges ⟨[("a", .file [104])], []⟩
      ⟨⟨"a", false, [104]⟩, ⟨"a", false, [104]⟩⟩).2.2 rfl rfl rfl (by decide)⟩

/-! ## Check -/

/-- C9: for every name, every raw input map and every validation function
`defaultCheck`, Check returns what `defaultCheck` returns on the map
`checkInputs`; when the raw map has no "path" key that map binds "path" to the
string name and every other key as the raw map does; when the raw map has a
"path" key it is the raw map. When `defaultCheck` decodes a string bound to
"path" into the path of its result, the inputs Check returns for a raw map
without "path" have path = name. -/
theorem Check_defaults_path
    (defaultCheck : PropertyMap → FileArgs × List CheckFailure × Option Error)
    (req : CheckRequest) :
    Check defaultCheck req =
      (⟨(defaultCheck (checkInputs req)).1, (defaultCheck (checkInputs req)).2.1⟩,
        (defaultCheck (checkInputs req)).2.2) ∧
    (req.NewInputs "path" = none →
      checkInputs req "path" = some (.string req.Name) ∧
      ∀ k, k ≠ "path" → checkInputs req k = req.NewInputs k) ∧
    (req.NewInputs "path" ≠ none → checkInputs req = req.NewInputs) ∧
    ((∀ m s, m "path" = some (.string s) → (defaultCheck m).1.Path = s) →
      req.NewInputs "path" = none →
      (Check defaultCheck req).1.Inputs.Path = req.Name) := by
  have hset : req.NewInputs "path" = none →
      checkInputs req "path" = some (.string req.Name) := by
    intro h
    simp [checkInputs, PropertyMap.GetOk, PropertyMap.Set, h]
  refine ⟨rfl, ?_, ?_, ?_⟩
  · intro h
    refine ⟨hset h, ?_⟩
    intro k hk
    simp [checkInputs, PropertyMap.GetOk, PropertyMap.Set, h, hk]
  · intro h
    cases hv : req.NewInputs "path" with
    | none => exact absurd hv h
    | some v => simp [checkInputs, PropertyMap.GetOk, hv]
  · intro hdec h
    exact hdec (checkInputs req) req.Name (hset h)

/-- Witness of C9: Check of the empty map for the resource "cfg" yields path "cfg",
and a map with a "path" is passed on as it is. -/
theorem Check_defaults_path_witness :
    checkInputs ⟨"cfg", fun _ => none⟩ "path" = some (.string "cfg") ∧
    checkInputs ⟨"cfg", fun k => if k = "path" then some (.string "x") else none⟩ =
      (fun k => if k = "path" then some (.string "x") else none) ∧
    (Check plainCheck ⟨"cfg", fun _ => none⟩).1.Inputs.Path = "cfg" :=
  ⟨((Check_defaults_path plainCheck ⟨"cfg", fun _ => none⟩).2.1 rfl).1,
   (Check_defaults_path plainCheck
      ⟨"cfg", fun k => if k = "path" then some (.string "x") else none⟩).2.2.1
      (by decide),
   (Check_defaults_path plainCheck ⟨"cfg", fun _ => none⟩).2.2.2
      (by intro m s h; simp [plainCheck, h]) rfl⟩

/-! ## Create, then Diff -/

/-- C10: for every filesystem, outcome of the write and inputs, when Create
that is not a dry run succeeds with state s, Diff of the inputs against s on
the resulting filesystem returns no error, hasChanges=false and an empty
detailedDiff. -/
theorem Create_Diff_converges (fs : FS) (w : WriteResult) (inputs : FileArgs)
    (h : (Create fs w ⟨inputs, false⟩).2.2 = none) :
    (Diff (Create fs w ⟨inputs, false⟩).1
      ⟨inputs, (Create fs w ⟨inputs, false⟩).2.1.Output⟩).2 = none ∧
    (Diff (Create fs w ⟨inputs, false⟩).1
      ⟨inputs, (Create fs w ⟨inputs, false⟩).2.1.Output⟩).1.HasChanges = false ∧
    (Diff (Create fs w ⟨inputs, false⟩).1
      ⟨inputs, (Create fs w ⟨inputs, false⟩).2.1.Output⟩).1.DetailedDiff = [] := by
  obtain ⟨_, _, hr, he, _⟩ := Create_success fs w inputs h
  rw [← osStat_eq_none_iff] at he
  have h0 : diffMap (Create fs w ⟨inputs, false⟩).1
      ⟨inputs, (Create fs w ⟨inputs, false⟩).2.1.Output⟩ = [] := by
    rw [diffMap_eq_nil_iff, hr]
    simp [he, osIsNotExist]
  simp [Diff, h0]

/-- Witness of C10: Create of "a.txt" on an empty filesystem, then Diff. -/
theorem Create_Diff_converges_witness :
    (Create ⟨[], []⟩ ⟨2, none⟩ ⟨⟨"a.txt", false, [104, 105]⟩, false⟩).2.2 = none ∧
    (Diff (Create ⟨[], []⟩ ⟨2, none⟩ ⟨⟨"a.txt", false, [104, 105]⟩, false⟩).1
      ⟨⟨"a.txt", false, [104, 105]⟩,
        (Create ⟨[], []⟩ ⟨2, none⟩ ⟨⟨"a.txt", false, [104, 105]⟩, false⟩).2.1.Output⟩).1.HasChanges =
      false :=
  ⟨by decide,
   (Create_Diff_converges ⟨[], []⟩ ⟨2, none⟩ ⟨"a.txt", false, [104, 105]⟩ (by decide)).2.1⟩

end FileProvider
